import Mathlib

/-!
# Verification of the config-update pipeline (`UpdateConfig.ts`)

Shallow embedding of `src/packages/zwave-js/src/lib/driver/UpdateConfig.ts`:

* `checkForConfigUpdates` — version discovery.  The npm registry listing is
  passed in as a list of version strings (the network fetch is an external
  collaborator).  The node-semver operations used by the source
  (`semverValid`, `semverInc(·, "patch")`, `semverMaxSatisfying` with
  `includePrerelease: true`, and the range string `>cur <next`) are embedded
  at the string level: a parser for the strict semver grammar
  (`v?N.N.N(-pre)?(+build)?`), precedence comparison, patch increment, and a
  comparator-list range parser.  JS number bounds (`MAX_SAFE_INTEGER`) and the
  256-character length cap of node-semver are abstracted away: numeric
  components are unbounded naturals.

* `installConfigUpdate` — the installation pipeline, embedded as a pure
  function from an environment (an oracle saying which external operation
  fails, plus the archive contents) to a result record: the outcome, the
  final contents of the live config directory, the lock state, how many times
  the lock-release helper ran, and whether the temporary workspace directory
  persists.  Filesystem directories are finite association lists from
  relative paths to file contents.
-/

namespace UpdateConfig

/-! ## Characters and numerals -/

/-- ASCII digit test, mirroring `[0-9]` in node-semver's regexes. -/
def isDigit (c : Char) : Bool := '0' ≤ c && c ≤ '9'

/-- ASCII letter test, mirroring `[a-zA-Z]`. -/
def isAlpha (c : Char) : Bool := ('a' ≤ c && c ≤ 'z') || ('A' ≤ c && c ≤ 'Z')

/-- Characters allowed in semver prerelease/build identifiers: `[0-9A-Za-z-]`. -/
def isIdentChar (c : Char) : Bool := isDigit c || isAlpha c || c = '-'

/-- Numeric value of an ASCII digit. -/
def digitVal (c : Char) : Nat := c.toNat - 48

/-- Value of a digit string, most significant digit first. -/
def charsToNat (cs : List Char) : Nat := cs.foldl (fun a c => 10 * a + digitVal c) 0

/-- Decimal digit characters of `n`, most significant first (fueled recursion;
`n + 1` units of fuel always suffice). -/
def natToCharsAux : Nat → Nat → List Char → List Char
  | 0, _, acc => acc
  | fuel + 1, n, acc =>
    if n < 10 then Nat.digitChar n :: acc
    else natToCharsAux fuel (n / 10) (Nat.digitChar (n % 10) :: acc)

/-- Decimal representation of `n` as characters. -/
def natToChars (n : Nat) : List Char := natToCharsAux (n + 1) n []

/-! ## The semver data model (node-semver, strict mode) -/

/-- A prerelease identifier: numeric identifiers compare numerically and are
lower than alphanumeric ones, which compare as ASCII strings. -/
inductive PreId where
  | num (n : Nat)
  | str (s : List Char)
deriving DecidableEq, Repr

/-- A parsed semantic version.  `build` is kept for parse fidelity but is
ignored by precedence comparison, exactly as in node-semver. -/
structure SemVer where
  major : Nat
  minor : Nat
  patch : Nat
  prerelease : List PreId
  build : List (List Char)
deriving DecidableEq, Repr

/-! ## The semver parser (node-semver's strict `FULL` regex) -/

/-- Strip the optional leading `v` allowed by node-semver's regex. -/
def stripV : List Char → List Char
  | c :: rest => if c = 'v' then rest else c :: rest
  | [] => []

/-- Parse a numeric version component: `0|[1-9]\d*` (no leading zeros). -/
def parseNumericId (cs : List Char) : Option (Nat × List Char) :=
  let ds := cs.takeWhile isDigit
  let rest := cs.dropWhile isDigit
  match ds with
  | [] => none
  | [d] => some (digitVal d, rest)
  | d :: _ :: _ => if d = '0' then none else some (charsToNat ds, rest)

/-- Parse one prerelease identifier: a maximal run of `[0-9A-Za-z-]`,
classified as numeric (`0|[1-9]\d*`) or alphanumeric
(`\d*[a-zA-Z-][a-zA-Z0-9-]*`). -/
def parsePreId (cs : List Char) : Option (PreId × List Char) :=
  let run := cs.takeWhile isIdentChar
  let rest := cs.dropWhile isIdentChar
  match run with
  | [] => none
  | d :: ds =>
    if (d :: ds).all isDigit then
      if d = '0' && !ds.isEmpty then none
      else some (.num (charsToNat (d :: ds)), rest)
    else some (.str (d :: ds), rest)

/-- Parse one build identifier: a maximal nonempty run of `[0-9A-Za-z-]`. -/
def parseBuildId (cs : List Char) : Option (List Char × List Char) :=
  let run := cs.takeWhile isIdentChar
  let rest := cs.dropWhile isIdentChar
  match run with
  | [] => none
  | d :: ds => some (d :: ds, rest)

/-- Parse a nonempty dot-separated list using the given item parser.
Fueled; `length + 1` units always suffice. -/
def parseDotSep (p : List Char → Option (α × List Char)) :
    Nat → List Char → Option (List α × List Char)
  | 0, _ => none
  | fuel + 1, cs =>
    match p cs with
    | none => none
    | some (a, rest) =>
      match rest with
      | [] => some ([a], [])
      | c :: rest2 =>
        if c = '.' then
          match parseDotSep p fuel rest2 with
          | none => none
          | some (as, r) => some (a :: as, r)
        else some ([a], rest)

/-- Parse the optional `-prerelease` and `+build` suffixes, requiring that the
whole input is consumed. -/
def parseSuffix (cs : List Char) : Option (List PreId × List (List Char)) :=
  match cs with
  | [] => some ([], [])
  | c :: rest =>
    if c = '-' then
      match parseDotSep parsePreId (rest.length + 1) rest with
      | none => none
      | some (pre, r) =>
        match r with
        | [] => some (pre, [])
        | c2 :: r2 =>
          if c2 = '+' then
            match parseDotSep parseBuildId (r2.length + 1) r2 with
            | none => none
            | some (bld, r3) => if r3.isEmpty then some (pre, bld) else none
          else none
    else if c = '+' then
      match parseDotSep parseBuildId (rest.length + 1) rest with
      | none => none
      | some (bld, r3) => if r3.isEmpty then some ([], bld) else none
    else none

/-- Parse a strict semver string: `v?N.N.N(-pre)?(+build)?`, entire input. -/
def parseSemVerChars (cs0 : List Char) : Option SemVer :=
  let cs := stripV cs0
  match parseNumericId cs with
  | none => none
  | some (maj, r1) =>
    match r1 with
    | [] => none
    | c :: r2 =>
      if c = '.' then
        match parseNumericId r2 with
        | none => none
        | some (mino, r3) =>
          match r3 with
          | [] => none
          | c2 :: r4 =>
            if c2 = '.' then
              match parseNumericId r4 with
              | none => none
              | some (pat, r5) =>
                match parseSuffix r5 with
                | none => none
                | some (pre, bld) => some ⟨maj, mino, pat, pre, bld⟩
            else none
      else none

/-- `semverValid`-style parse of a string. -/
def parseSemVerStr (s : String) : Option SemVer := parseSemVerChars s.data

/-! ## Precedence comparison (node-semver `compare`) -/

/-- Compare characters by code unit (JS string `<`). -/
def cmpChar (a b : Char) : Ordering := compare a.toNat b.toNat

/-- Lexicographic comparison of character lists; a proper prefix is smaller. -/
def cmpCharList : List Char → List Char → Ordering
  | [], [] => .eq
  | [], _ :: _ => .lt
  | _ :: _, [] => .gt
  | a :: as, b :: bs =>
    match cmpChar a b with
    | .eq => cmpCharList as bs
    | o => o

/-- node-semver `compareIdentifiers`: numeric < alphanumeric. -/
def cmpPreId : PreId → PreId → Ordering
  | .num a, .num b => compare a b
  | .num _, .str _ => .lt
  | .str _, .num _ => .gt
  | .str a, .str b => cmpCharList a b

/-- Elementwise comparison of prerelease identifier lists; a proper prefix is
smaller (`1.2.3-a < 1.2.3-a.0`). -/
def cmpPreList : List PreId → List PreId → Ordering
  | [], [] => .eq
  | [], _ :: _ => .lt
  | _ :: _, [] => .gt
  | a :: as, b :: bs =>
    match cmpPreId a b with
    | .eq => cmpPreList as bs
    | o => o

/-- node-semver `comparePre`: any prerelease sorts below the stable release
with the same version core. -/
def comparePre : List PreId → List PreId → Ordering
  | [], [] => .eq
  | [], _ :: _ => .gt
  | _ :: _, [] => .lt
  | a :: as, b :: bs => cmpPreList (a :: as) (b :: bs)

/-- node-semver `compare`: version core lexicographically, then prerelease.
Build metadata is ignored. -/
def semverCompare (a b : SemVer) : Ordering :=
  match compare a.major b.major with
  | .lt => .lt
  | .gt => .gt
  | .eq =>
    match compare a.minor b.minor with
    | .lt => .lt
    | .gt => .gt
    | .eq =>
      match compare a.patch b.patch with
      | .lt => .lt
      | .gt => .gt
      | .eq => comparePre a.prerelease b.prerelease

/-! ## `semverInc(·, "patch")` -/

/-- node-semver `inc(v, "patch")` on a parsed version: a prerelease is bumped
to its own stable version, a stable version to the next patch level.  The
result never carries prerelease or build parts. -/
def incPatch (v : SemVer) : SemVer :=
  if v.prerelease.isEmpty then ⟨v.major, v.minor, v.patch + 1, [], []⟩
  else ⟨v.major, v.minor, v.patch, [], []⟩

/-- Characters of the canonical rendering of a stable version (`M.m.p`);
node-semver's `inc` returns exactly this for `"patch"`. -/
def formatStable (v : SemVer) : List Char :=
  natToChars v.major ++ '.' :: natToChars v.minor ++ '.' :: natToChars v.patch

/-- `semverInc(s, "patch")`: `none` models node-semver returning `null` on an
invalid input. -/
def semverIncPatchStr (s : String) : Option String :=
  (parseSemVerStr s).map (fun v => String.mk (formatStable (incPatch v)))

/-! ## Ranges (`>cur <next`, `includePrerelease: true`) -/

/-- Comparator operators recognised by node-semver's comparator regex. -/
inductive CompOp where
  | lt | le | gt | ge | eq
deriving DecidableEq, Repr

/-- Split an operator prefix (`>=`, `<=`, `>`, `<`, `=`, or none) off a
comparator token. -/
def parseCompOp (cs : List Char) : CompOp × List Char :=
  match cs with
  | [] => (.eq, [])
  | c1 :: rest1 =>
    if c1 = '>' then
      match rest1 with
      | c2 :: rest2 => if c2 = '=' then (.ge, rest2) else (.gt, rest1)
      | [] => (.gt, [])
    else if c1 = '<' then
      match rest1 with
      | c2 :: rest2 => if c2 = '=' then (.le, rest2) else (.lt, rest1)
      | [] => (.lt, [])
    else if c1 = '=' then (.eq, rest1)
    else (.eq, cs)

/-- Parse one comparator token: an operator followed by a full version. -/
def parseComparator (cs : List Char) : Option (CompOp × SemVer) :=
  let (op, rest) := parseCompOp cs
  (parseSemVerChars rest).map (fun v => (op, v))

/-- Split a range string on spaces, dropping empty tokens (`split(/\s+/)`). -/
def splitOnSpaceAux : List Char → List Char → List (List Char)
  | [], acc => if acc.isEmpty then [] else [acc.reverse]
  | c :: rest, acc =>
    if c = ' ' then
      if acc.isEmpty then splitOnSpaceAux rest []
      else acc.reverse :: splitOnSpaceAux rest []
    else splitOnSpaceAux rest (c :: acc)

/-- Tokens of a space-separated range string. -/
def splitOnSpace (cs : List Char) : List (List Char) := splitOnSpaceAux cs []

/-- Parse a space-separated comparator list; `none` models `new Range(...)`
throwing (which `maxSatisfying` turns into a `null` result). -/
def parseRange (s : String) : Option (List (CompOp × SemVer)) :=
  (splitOnSpace s.data).mapM parseComparator

/-- Test one comparator against a version (`cmp` in node-semver). -/
def testComp (v : SemVer) : CompOp × SemVer → Bool
  | (.lt, c) => match semverCompare v c with | .lt => true | _ => false
  | (.le, c) => match semverCompare v c with | .gt => false | _ => true
  | (.gt, c) => match semverCompare v c with | .gt => true | _ => false
  | (.ge, c) => match semverCompare v c with | .lt => false | _ => true
  | (.eq, c) => match semverCompare v c with | .eq => true | _ => false

/-- Range satisfaction with `includePrerelease: true`: every comparator must
hold; the prerelease-exclusion rule is disabled. -/
def rangeSatisfies (comps : List (CompOp × SemVer)) (v : SemVer) : Bool :=
  comps.all (testComp v)

/-- One step of node-semver `maxSatisfying`'s `forEach`: keep the current
maximum unless `v` satisfies the range and is strictly greater. -/
def maxStep (comps : List (CompOp × SemVer)) (acc : Option String) (v : String) :
    Option String :=
  match parseSemVerStr v with
  | none => acc
  | some sv =>
    if rangeSatisfies comps sv then
      match acc with
      | none => some v
      | some m =>
        match parseSemVerStr m with
        | none => acc
        | some msv =>
          match semverCompare msv sv with
          | .lt => some v
          | _ => acc
    else acc

/-- `semverMaxSatisfying(versions, range, { includePrerelease: true })`. -/
def semverMaxSatisfying (versions : List String) (range : String) : Option String :=
  match parseRange range with
  | none => none
  | some comps => versions.foldl (maxStep comps) none

/-! ## `checkForConfigUpdates` -/

/-- The regex filter `/\-\d{8}$/`: the string ends in `-` followed by exactly
eight digits. -/
def datedPre (s : String) : Bool :=
  let cs := s.data
  decide (9 ≤ cs.length) &&
    match cs.drop (cs.length - 9) with
    | c :: ds => c = '-' && ds.all isDigit
    | [] => false

/-- The update range string `` `>${currentVersion} <${semverInc(currentVersion, "patch")}` ``;
interpolating JavaScript `null` yields the literal token `null`. -/
def updateRangeStr (currentVersion : String) : String :=
  ">" ++ currentVersion ++ " <" ++ ((semverIncPatchStr currentVersion).getD "null")

/-- `checkForConfigUpdates`, given the registry's version listing (the keys of
`registry.versions`, in object order).  Returns the update version, or `none`
("no update"). -/
def checkForConfigUpdates (registryVersions : List String) (currentVersion : String) :
    Option String :=
  let allVersions :=
    (registryVersions.filter (fun v => (parseSemVerStr v).isSome)).filter
      (fun v => datedPre v)
  let updateRange := updateRangeStr currentVersion
  semverMaxSatisfying allVersions updateRange

/-- Characters that can occur in a string accepted by the semver parser:
identifier characters plus `.` and `+` (and the optional leading `v`, which is
a letter).  Notably neither a space nor `=` is among them. -/
def goodChar (c : Char) : Bool := isIdentChar c || c = '.' || c = '+'

/-- Whether a listed version string counts as satisfying the range in
`maxSatisfying`: it parses and every comparator holds. -/
def satOK (comps : List (CompOp × SemVer)) (w : String) : Bool :=
  match parseSemVerStr w with
  | none => false
  | some wv => rangeSatisfies comps wv

/-- `w` precedes-or-equals `m` in semver precedence (prereleases included). -/
def svLe (w m : String) : Prop :=
  ∃ wv mv, parseSemVerStr w = some wv ∧ parseSemVerStr m = some mv ∧
    semverCompare wv mv ≠ .gt

/-- A registry entry qualifies as an update candidate for the parsed current
version `c`: it is a valid semver string, carries the 8-digit dated-prerelease
suffix, and lies strictly inside the update range
`(c, incPatch c)` — prereleases included. -/
def qualifies (c : SemVer) (w : String) : Bool :=
  match parseSemVerStr w with
  | none => false
  | some wv => datedPre w && rangeSatisfies [(.gt, c), (.lt, incPatch c)] wv

/-! ## The installation pipeline (`installConfigUpdate`)

Directories are finite association lists from relative paths to file
contents.  The external collaborators (got, proper-lockfile, tar, the
`FileSystem` binding, and the helpers from `@zwave-js/shared`) are driven by
an oracle (`InstallEnv`) that says which operation fails and with what cause
string, plus the contents of the archive's `config/` directory. -/

/-- Error codes used by `UpdateConfig.ts`. -/
inductive ZWaveErrorCodes where
  | Config_Update_RegistryError
  | Config_Update_InstallFailed
deriving DecidableEq, Repr

/-- A `ZWaveError`: message plus code. -/
structure ZWaveError where
  message : String
  code : ZWaveErrorCodes
deriving DecidableEq, Repr

/-- JavaScript `String.prototype.endsWith`: a suffix test on the character
sequence (the source filter is `(src) => src.endsWith(".json")`). -/
def strEndsWith (s suffx : String) : Bool := suffx.data.isSuffixOf s.data

/-- Modelled from the spec: `writeTextFile` from `@zwave-js/shared` (not under
`src/`) creates or overwrites the named file with the given text (§6
"Filesystem capability"). -/
def writeFileEntry (dir : List (String × String)) (name content : String) :
    List (String × String) :=
  (dir.filter (fun e => e.1 ≠ name)) ++ [(name, content)]

/-- Modelled from the spec: `copyFilesRecursive` from `@zwave-js/shared` (not
under `src/`) recursively copies into `dest` exactly the source files whose
path passes `filt` (§6 `copyFilesRecursive(srcDir, destDir, filter)`).  Source
files are given by path relative to the source directory; since the
predicate used by `installConfigUpdate` is a pure suffix test (`.endsWith`)
and path segments are joined with `/`, testing the relative path is
equivalent to testing the absolute one. -/
def copyFilesRecursive (srcFiles : List (String × String))
    (dest : List (String × String)) (filt : String → Bool) :
    List (String × String) :=
  srcFiles.foldl (fun d f => if filt f.1 then writeFileEntry d f.1 f.2 else d) dest

/-- Plain association-list file lookup in a directory. -/
def lookupFile (dir : List (String × String)) (name : String) : Option String :=
  match dir with
  | [] => none
  | e :: rest => if e.1 = name then some e.2 else lookupFile rest name

/-- Failure oracle and inputs for one run of `installConfigUpdate`.
`Option String` fields carry the cause message of a thrown error (`none` = the
operation succeeds); `Bool` fields are plain success flags. -/
structure InstallEnv where
  /-- `got.get(registry∕version).json()` succeeds. -/
  registryFetchOk : Bool
  /-- `registryInfo?.dist?.tarball` when it is a string, else `none`. -/
  tarballUrl : Option String
  /-- Cause of a `lockfile.lock` failure (any cause: held lock, missing or
  unwritable `cacheDir`, ...). -/
  lockErr : Option String
  /-- Cause of a `fsp.mkdtemp` failure. -/
  mkdtempErr : Option String
  /-- Cause of a `fsp.open(tarFilename, "w")` failure. -/
  openErr : Option String
  /-- Cause of an `error` event on the `got` response stream. -/
  transportErr : Option String
  /-- Cause of an `error` on the file write stream.  The awaited promise in
  the source listens only on the response stream, so this error is *not*
  observed by the download step; it leaves the archive file corrupt. -/
  writeStreamErr : Option String
  /-- `fs.deleteDir(extractedDir)` succeeds. -/
  deleteExtractedOk : Bool
  /-- `fs.ensureDir(extractedDir)` succeeds. -/
  ensureExtractedOk : Bool
  /-- `execa("tar", ...)` exits 0 on an intact archive. -/
  tarOk : Bool
  /-- `fs.deleteDir(external.configDir)` succeeds. -/
  deleteConfigOk : Bool
  /-- `fs.ensureDir(external.configDir)` succeeds. -/
  ensureConfigOk : Bool
  /-- `copyFilesRecursive` succeeds. -/
  copyOk : Bool
  /-- `writeTextFile(fs, externalVersionFilename, newVersion)` succeeds. -/
  writeVersionOk : Bool
  /-- `fs.deleteDir(tmpDir)` succeeds (errors are swallowed by `.catch(noop)`). -/
  deleteTmpOk : Bool
  /-- `lockfile.check` does not throw. -/
  checkOk : Bool
  /-- `lockfile.unlock` does not throw. -/
  unlockOk : Bool
  /-- Contents of the archive's `config/` directory after extraction:
  paths relative to `extracted/config`, with file contents. -/
  archiveConfigFiles : List (String × String)
deriving Repr

/-- Result of a run: normal return, or the thrown `ZWaveError`. -/
inductive InstallOutcome where
  | ok
  | err (e : ZWaveError)
deriving DecidableEq, Repr

/-- Observable outcome of one run: result plus final world state. -/
structure InstallResult where
  /-- Normal return or the thrown `ZWaveError`. -/
  result : InstallOutcome
  /-- Final contents of the live `external.configDir`. -/
  configDir : List (String × String)
  /-- Whether the advisory lock is still held at return. -/
  lockHeld : Bool
  /-- How many times the `freeLock` helper ran. -/
  freeLockCalls : Nat
  /-- Whether the temporary workspace directory was created. -/
  tmpCreated : Bool
  /-- Whether the temporary workspace directory still exists at return. -/
  tmpDirExists : Bool
  /-- Whether the replace phase touched `configDir` (i.e. the
  `fs.deleteDir(external.configDir)` call was issued). -/
  replaceStarted : Bool
deriving Repr, DecidableEq

/-- Mutable world state threaded through the run. -/
structure InstallState where
  configDir : List (String × String)
  lockHeld : Bool
  freeLockCalls : Nat
  tmpCreated : Bool
  tmpDirExists : Bool
  replaceStarted : Bool
deriving Repr, DecidableEq

/-- The `freeLock` closure: `if (await lockfile.check(...)) await
lockfile.unlock(...)`, all errors swallowed.  The lock is freed exactly when
`check` ran without error and reported the lock held and `unlock` ran without
error; a swallowed `check`/`unlock` failure leaves the lock as it was. -/
def freeLock (env : InstallEnv) (s : InstallState) : InstallState :=
  if env.checkOk && s.lockHeld && env.unlockOk then
    { s with lockHeld := false, freeLockCalls := s.freeLockCalls + 1 }
  else
    { s with freeLockCalls := s.freeLockCalls + 1 }

/-- Package an error result. -/
def throwWith (msg : String) (s : InstallState) : InstallResult :=
  ⟨.err ⟨msg, .Config_Update_InstallFailed⟩, s.configDir, s.lockHeld,
    s.freeLockCalls, s.tmpCreated, s.tmpDirExists, s.replaceStarted⟩

/-- The single error thrown by the extract-and-replace `catch` block. -/
def extractTarballMsg : String := "Config update failed: Could not extract tarball"

/-- Whether the `tar` invocation succeeds: the process must exit 0 and the
archive file must not be corrupt from an unobserved write-stream error. -/
def tarExtractOk (env : InstallEnv) : Bool :=
  env.tarOk && env.writeStreamErr.isNone

/-- Package a normal return. -/
def finishOk (s : InstallState) : InstallResult :=
  ⟨.ok, s.configDir, s.lockHeld, s.freeLockCalls, s.tmpCreated,
    s.tmpDirExists, s.replaceStarted⟩

/-- The extract-and-replace `try` block (source lines 179–211) followed by the
success-path cleanup (lines 213–217): clean `extracted/`, run `tar`, delete
and recreate `configDir`, copy the `.json` files from `extracted/config`,
write the `version` stamp; on any failure free the lock and throw the one
generic error.  A failed `fs.deleteDir(external.configDir)` is modelled as
leaving the directory contents in place, and a failed copy as having copied
nothing; either way the `catch` rethrows generically. -/
def extractAndReplace (env : InstallEnv) (newVersion : String) (s : InstallState) :
    InstallResult :=
  if !env.deleteExtractedOk then throwWith extractTarballMsg (freeLock env s)
  else if !env.ensureExtractedOk then throwWith extractTarballMsg (freeLock env s)
  else if !tarExtractOk env then throwWith extractTarballMsg (freeLock env s)
  else if !env.deleteConfigOk then
    throwWith extractTarballMsg (freeLock env { s with replaceStarted := true })
  else if !env.ensureConfigOk then
    throwWith extractTarballMsg
      (freeLock env { s with replaceStarted := true, configDir := [] })
  else if !env.copyOk then
    throwWith extractTarballMsg
      (freeLock env { s with replaceStarted := true, configDir := [] })
  else if !env.writeVersionOk then
    throwWith extractTarballMsg
      (freeLock env
        { s with
          replaceStarted := true,
          configDir := copyFilesRecursive env.archiveConfigFiles []
            (fun src => strEndsWith src ".json") })
  else
    finishOk (freeLock env
      { s with
        replaceStarted := true,
        configDir := writeFileEntry
          (copyFilesRecursive env.archiveConfigFiles []
            (fun src => strEndsWith src ".json")) "version" newVersion,
        tmpDirExists := !env.deleteTmpOk })

/-- `installConfigUpdate(fs, newVersion, external)`: registry metadata fetch,
tarball URL check, lock acquisition, temporary directory creation, streamed
download, then extract-and-replace.  `configDir0` is the pre-call content of
`external.configDir`. -/
def installConfigUpdate (env : InstallEnv) (newVersion : String)
    (configDir0 : List (String × String)) : InstallResult :=
  if !env.registryFetchOk then
    throwWith "Config update failed: Could not fetch package info from npm registry!"
      ⟨configDir0, false, 0, false, false, false⟩
  else
    match env.tarballUrl with
    | none =>
      throwWith
        "Config update failed: Could not fetch package tarball URL from npm registry!"
        ⟨configDir0, false, 0, false, false, false⟩
    | some _url =>
      match env.lockErr with
      | some _cause =>
        throwWith "Config update failed: Another installation is already in progress!"
          ⟨configDir0, false, 0, false, false, false⟩
      | none =>
        match env.mkdtempErr with
        | some e =>
          throwWith
            ("Config update failed: Could not create temporary directory. Reason: " ++ e)
            (freeLock env ⟨configDir0, true, 0, false, false, false⟩)
        | none =>
          match env.openErr with
          | some e =>
            throwWith
              ("Config update failed: Could not download tarball. Reason: " ++ e)
              (freeLock env ⟨configDir0, true, 0, true, true, false⟩)
          | none =>
            match env.transportErr with
            | some e =>
              throwWith
                ("Config update failed: Could not download tarball. Reason: " ++ e)
                (freeLock env ⟨configDir0, true, 0, true, true, false⟩)
            | none =>
              -- A write-stream error is not observed here: the awaited promise
              -- listens only on the response stream.
              extractAndReplace env newVersion ⟨configDir0, true, 0, true, true, false⟩

/-- A fully succeeding environment, used for concrete runs: the registry
returns a tarball URL, every external operation succeeds, and the archive's
`config/` directory holds one `.json` device file and one non-`.json` file. -/
def envAllOk : InstallEnv where
  registryFetchOk := true
  tarballUrl := some "https://registry.npmjs.org/@zwave-js/config/-/config-7.2.5-20200424.tgz"
  lockErr := none
  mkdtempErr := none
  openErr := none
  transportErr := none
  writeStreamErr := none
  deleteExtractedOk := true
  ensureExtractedOk := true
  tarOk := true
  deleteConfigOk := true
  ensureConfigOk := true
  copyOk := true
  writeVersionOk := true
  deleteTmpOk := true
  checkOk := true
  unlockOk := true
  archiveConfigFiles := [("devices/0x1234.json", "{}"), ("readme.txt", "no")]

/-! ## Helper lemmas: `freeLock` and the directory operations -/

theorem freeLock_configDir (env : InstallEnv) (s : InstallState) :
    (freeLock env s).configDir = s.configDir := by
  unfold freeLock; split <;> rfl

theorem freeLock_calls (env : InstallEnv) (s : InstallState) :
    (freeLock env s).freeLockCalls = s.freeLockCalls + 1 := by
  unfold freeLock; split <;> rfl

theorem freeLock_tmpCreated (env : InstallEnv) (s : InstallState) :
    (freeLock env s).tmpCreated = s.tmpCreated := by
  unfold freeLock; split <;> rfl

theorem freeLock_tmpDirExists (env : InstallEnv) (s : InstallState) :
    (freeLock env s).tmpDirExists = s.tmpDirExists := by
  unfold freeLock; split <;> rfl

theorem freeLock_replaceStarted (env : InstallEnv) (s : InstallState) :
    (freeLock env s).replaceStarted = s.replaceStarted := by
  unfold freeLock; split <;> rfl

theorem writeFileEntry_self (d : List (String × String)) (n c : String) :
    (n, c) ∈ writeFileEntry d n c := by
  simp [writeFileEntry]

theorem writeFileEntry_preserve (d : List (String × String)) (n c : String)
    (e : String × String) (he : e ∈ d) (hne : e.1 ≠ n) :
    e ∈ writeFileEntry d n c := by
  simp only [writeFileEntry, List.mem_append]
  exact Or.inl (List.mem_filter.mpr ⟨he, by simpa using hne⟩)

theorem mem_writeFileEntry (d : List (String × String)) (n c : String)
    (e : String × String) (h : e ∈ writeFileEntry d n c) : e ∈ d ∨ e = (n, c) := by
  simp only [writeFileEntry, List.mem_append, List.mem_filter,
    List.mem_singleton] at h
  rcases h with ⟨hd, _⟩ | heq
  · exact Or.inl hd
  · exact Or.inr heq

theorem lookupFile_writeFileEntry_self (d : List (String × String)) (n c : String) :
    lookupFile (writeFileEntry d n c) n = some c := by
  unfold writeFileEntry
  induction d with
  | nil => simp [lookupFile]
  | cons e rest ih =>
    by_cases hne : e.1 ≠ n
    · simpa [lookupFile, List.filter_cons, hne] using ih
    · simp only [ne_eq, not_not] at hne
      simpa [lookupFile, List.filter_cons, hne] using ih

theorem copyFilesRecursive_filter (src : List (String × String)) :
    ∀ (acc : List (String × String)) (filt : String → Bool),
      (∀ e ∈ acc, filt e.1 = true) →
      ∀ e ∈ copyFilesRecursive src acc filt, filt e.1 = true := by
  induction src with
  | nil => intro acc filt hacc e he; exact hacc e he
  | cons f rest ih =>
    intro acc filt hacc e he
    simp only [copyFilesRecursive, List.foldl_cons] at he
    by_cases hf : filt f.1 = true
    · refine ih _ filt ?_ e (by simpa [copyFilesRecursive, hf] using he)
      intro x hx
      rcases mem_writeFileEntry _ _ _ _ hx with hxa | hxe
      · exact hacc x hxa
      · rw [hxe]; exact hf
    · exact ih _ filt hacc e (by simpa [copyFilesRecursive, hf] using he)

theorem copyFilesRecursive_preserve (src : List (String × String)) :
    ∀ (acc : List (String × String)) (filt : String → Bool) (e : String × String),
      (∀ x ∈ src, x.1 ≠ e.1) → e ∈ acc → e ∈ copyFilesRecursive src acc filt := by
  induction src with
  | nil => intro acc filt e _ he; exact he
  | cons f rest ih =>
    intro acc filt e hn he
    simp only [copyFilesRecursive, List.foldl_cons]
    by_cases hf : filt f.1 = true
    · simp only [hf, if_true]
      exact ih _ filt e (fun x hx => hn x (List.mem_cons_of_mem _ hx))
        (writeFileEntry_preserve _ _ _ _ he
          (fun hc => hn f (List.mem_cons_self _ _) hc.symm))
    · simp only [hf]
      exact ih _ filt e (fun x hx => hn x (List.mem_cons_of_mem _ hx)) (by simpa [hf] using he)

theorem copyFilesRecursive_mem (src : List (String × String)) :
    ∀ (acc : List (String × String)) (filt : String → Bool) (e : String × String),
      (src.map Prod.fst).Nodup → e ∈ src → filt e.1 = true →
      e ∈ copyFilesRecursive src acc filt := by
  induction src with
  | nil => intro acc filt e _ he _; cases he
  | cons f rest ih =>
    intro acc filt e hnd he hf
    rw [List.map_cons, List.nodup_cons] at hnd
    rcases List.mem_cons.mp he with rfl | hmem
    · simp only [copyFilesRecursive, List.foldl_cons, hf, if_true]
      refine copyFilesRecursive_preserve rest _ filt e ?_ (writeFileEntry_self _ _ _)
      intro x hx hcx
      exact hnd.1 (by rw [← hcx]; exact List.mem_map_of_mem Prod.fst hx)
    · simp only [copyFilesRecursive, List.foldl_cons]
      by_cases hff : filt f.1 = true
      · simp only [hff, if_true]
        exact ih _ filt e hnd.2 hmem hf
      · simp only [hff]
        exact ih _ filt e hnd.2 hmem hf

/-! ## Helper lemmas: shapes of a finished run -/

/-- A successful run implies that every pipeline step succeeded. -/
theorem install_ok_flags (env : InstallEnv) (v : String)
    (cfg0 : List (String × String))
    (h : (installConfigUpdate env v cfg0).result = .ok) :
    env.registryFetchOk = true ∧ env.tarballUrl.isSome = true ∧ env.lockErr = none ∧
    env.mkdtempErr = none ∧ env.openErr = none ∧ env.transportErr = none ∧
    env.deleteExtractedOk = true ∧ env.ensureExtractedOk = true ∧
    tarExtractOk env = true ∧ env.deleteConfigOk = true ∧ env.ensureConfigOk = true ∧
    env.copyOk = true ∧ env.writeVersionOk = true := by
  unfold installConfigUpdate extractAndReplace at h
  repeat' split at h
  all_goals simp_all [throwWith]

/-- On success, the final `configDir` is the filtered copy of the archive's
`config/` directory plus the `version` stamp. -/
theorem install_ok_configDir (env : InstallEnv) (v : String)
    (cfg0 : List (String × String))
    (h : (installConfigUpdate env v cfg0).result = .ok) :
    (installConfigUpdate env v cfg0).configDir =
      writeFileEntry
        (copyFilesRecursive env.archiveConfigFiles []
          (fun src => strEndsWith src ".json")) "version" v := by
  unfold installConfigUpdate extractAndReplace at h ⊢
  repeat' split at h
  all_goals simp_all [throwWith, finishOk, freeLock_configDir]

/-! ## Claim theorems for the installation pipeline -/

/-- C1: whenever `installConfigUpdate(fs, v, external)` returns successfully,
`external.configDir/version` contains exactly the string `v`, every `.json`
file from the extracted archive's `config/` directory is present under
`configDir` with its contents, and every file present is either such a
`.json` file or the `version` stamp — so no non-`.json` archive file is
present. -/
theorem install_success_configDir_contents (env : InstallEnv) (v : String)
    (cfg0 : List (String × String))
    (hnd : (env.archiveConfigFiles.map Prod.fst).Nodup)
    (h : (installConfigUpdate env v cfg0).result = .ok) :
    lookupFile (installConfigUpdate env v cfg0).configDir "version" = some v ∧
    (∀ e ∈ env.archiveConfigFiles, strEndsWith e.1 ".json" = true →
      e ∈ (installConfigUpdate env v cfg0).configDir) ∧
    (∀ e ∈ (installConfigUpdate env v cfg0).configDir,
      strEndsWith e.1 ".json" = true ∨ e.1 = "version") := by
  rw [install_ok_configDir env v cfg0 h]
  refine ⟨lookupFile_writeFileEntry_self _ _ _, ?_, ?_⟩
  · intro e he hjson
    refine writeFileEntry_preserve _ _ _ _
      (copyFilesRecursive_mem env.archiveConfigFiles [] _ e hnd he hjson) ?_
    intro hv
    rw [hv] at hjson
    exact absurd hjson (by decide)
  · intro e he
    rcases mem_writeFileEntry _ _ _ _ he with hcopied | hver
    · exact Or.inl (copyFilesRecursive_filter env.archiveConfigFiles []
        _ (by intro x hx; cases hx) e hcopied)
    · exact Or.inr (by rw [hver])

/-- Witness for C1 at a concrete successful run. -/
theorem install_success_configDir_contents_witness :
    lookupFile (installConfigUpdate envAllOk "7.2.5-20200424"
        [("old.json", "o")]).configDir "version" = some "7.2.5-20200424" ∧
    (∀ e ∈ envAllOk.archiveConfigFiles, strEndsWith e.1 ".json" = true →
      e ∈ (installConfigUpdate envAllOk "7.2.5-20200424" [("old.json", "o")]).configDir) ∧
    (∀ e ∈ (installConfigUpdate envAllOk "7.2.5-20200424" [("old.json", "o")]).configDir,
      strEndsWith e.1 ".json" = true ∨ e.1 = "version") :=
  install_success_configDir_contents envAllOk "7.2.5-20200424" [("old.json", "o")]
    (by decide) (by decide)

/-- C2 counterexample: with every step succeeding except the final `version`
stamp write, `installConfigUpdate` throws, yet `configDir` ends up holding the
freshly-copied archive file instead of its pre-call contents — a failed
install does not leave the directory as it was. -/
theorem install_failed_configDir_mutated_cex :
    ((installConfigUpdate { envAllOk with writeVersionOk := false } "7.2.5-20200424"
        [("old.json", "{}")]).result ≠ .ok) ∧
    (installConfigUpdate { envAllOk with writeVersionOk := false } "7.2.5-20200424"
        [("old.json", "{}")]).configDir ≠ [("old.json", "{}")] := by
  decide

/-- C2 (amended): a call that throws *before the replace phase starts* (before
`fs.deleteDir(external.configDir)` is issued) leaves `configDir` exactly as it
was before the call; once the replace phase has started, a failure may leave
`configDir` in a mixed state. -/
theorem install_failure_before_replace_preserves_configDir (env : InstallEnv)
    (v : String) (cfg0 : List (String × String)) (e : ZWaveError)
    (h : (installConfigUpdate env v cfg0).result = .err e)
    (hrs : (installConfigUpdate env v cfg0).replaceStarted = false) :
    (installConfigUpdate env v cfg0).configDir = cfg0 := by
  unfold installConfigUpdate extractAndReplace at h hrs ⊢
  repeat' split at h
  all_goals simp_all [throwWith, finishOk, freeLock_configDir, freeLock_replaceStarted]

/-- Witness for the amended C2: a download failure preserves `configDir`. -/
theorem install_failure_before_replace_preserves_configDir_witness :
    (installConfigUpdate { envAllOk with transportErr := some "connection reset" }
      "7.2.5-20200424" [("old.json", "{}")]).configDir = [("old.json", "{}")] :=
  install_failure_before_replace_preserves_configDir _ _ _
    ⟨"Config update failed: Could not download tarball. Reason: connection reset",
      .Config_Update_InstallFailed⟩ (by decide) (by decide)

/-- C3: whenever the lock is acquired (the call reached `lockfile.lock` and it
succeeded), the `freeLock` helper runs exactly once before the call returns or
throws — on the success path and on every failure path — and, provided the
`lockfile.check`/`lockfile.unlock` primitives themselves do not fail, the lock
is actually free afterwards, so a later install is not blocked. -/
theorem install_lock_released_exactly_once (env : InstallEnv) (v : String)
    (cfg0 : List (String × String)) (hreg : env.registryFetchOk = true)
    (hurl : env.tarballUrl.isSome = true) (hlock : env.lockErr = none) :
    (installConfigUpdate env v cfg0).freeLockCalls = 1 ∧
    (env.checkOk = true → env.unlockOk = true →
      (installConfigUpdate env v cfg0).lockHeld = false) := by
  obtain ⟨u, hu⟩ := Option.isSome_iff_exists.mp hurl
  constructor
  · unfold installConfigUpdate extractAndReplace
    simp only [hreg, hu, hlock, Bool.not_true]
    repeat' split
    all_goals simp_all [throwWith, finishOk, freeLock_calls]
  · intro hc hul
    unfold installConfigUpdate extractAndReplace
    simp only [hreg, hu, hlock, Bool.not_true]
    repeat' split
    all_goals simp_all [throwWith, finishOk, freeLock]

/-- Witness for C3 at a concrete failing run (tar exits nonzero). -/
theorem install_lock_released_exactly_once_witness :
    (installConfigUpdate { envAllOk with tarOk := false } "1.2.3" []).freeLockCalls = 1 ∧
    ((envAllOk : InstallEnv).checkOk = true → (envAllOk : InstallEnv).unlockOk = true →
      (installConfigUpdate { envAllOk with tarOk := false } "1.2.3" []).lockHeld = false) :=
  install_lock_released_exactly_once { envAllOk with tarOk := false } "1.2.3" []
    (by decide) (by decide) (by decide)

/-- C4 counterexample: a download (transport) failure throws while the created
temporary workspace directory is left on disk — no cleanup is even attempted
on this failure path. -/
theorem install_tmpdir_persists_cex :
    ((installConfigUpdate { envAllOk with transportErr := some "connection reset" }
        "1.2.3" []).result ≠ .ok) ∧
    (installConfigUpdate { envAllOk with transportErr := some "connection reset" }
        "1.2.3" []).tmpCreated = true ∧
    (installConfigUpdate { envAllOk with transportErr := some "connection reset" }
        "1.2.3" []).tmpDirExists = true := by
  decide

/-- C4 (amended): the temporary workspace directory is removed (best-effort)
only on the success path; on every failure path after its creation the
directory persists on disk — cleanup is not attempted there. -/
theorem install_tmpdir_removed_on_success_only (env : InstallEnv) (v : String)
    (cfg0 : List (String × String)) :
    ((installConfigUpdate env v cfg0).result = .ok → env.deleteTmpOk = true →
      (installConfigUpdate env v cfg0).tmpDirExists = false) ∧
    (∀ e : ZWaveError, (installConfigUpdate env v cfg0).result = .err e →
      (installConfigUpdate env v cfg0).tmpCreated = true →
      (installConfigUpdate env v cfg0).tmpDirExists = true) := by
  constructor
  · intro h hd
    unfold installConfigUpdate extractAndReplace at h ⊢
    repeat' split at h
    all_goals simp_all [throwWith, finishOk, freeLock_tmpDirExists]
  · intro e h hc
    unfold installConfigUpdate extractAndReplace at h hc ⊢
    repeat' split at h
    all_goals simp_all [throwWith, finishOk, freeLock_tmpDirExists, freeLock_tmpCreated]

/-- Witness for the amended C4: a fully successful run removes the workspace. -/
theorem install_tmpdir_removed_on_success_only_witness :
    (installConfigUpdate envAllOk "1.2.3" []).tmpDirExists = false :=
  (install_tmpdir_removed_on_success_only envAllOk "1.2.3" []).1 (by decide) (by decide)

/-- C8 (code bug): an error on the file write stream during the download is
not observed — the awaited promise listens only on the response stream — so
instead of an `InstallFailedError` naming the write-error cause, the call
proceeds with a corrupt archive and fails with the generic extraction message
that does not mention the cause.  By contrast, a transport error on the
response stream *is* reported with its cause. -/
theorem install_writeStream_error_unreported :
    (installConfigUpdate
        { envAllOk with writeStreamErr := some "ENOSPC: no space left on device" }
        "1.2.3" [("old.json", "{}")]).result =
      .err ⟨"Config update failed: Could not extract tarball",
        .Config_Update_InstallFailed⟩ ∧
    (installConfigUpdate
        { envAllOk with transportErr := some "ENOSPC: no space left on device" }
        "1.2.3" [("old.json", "{}")]).result =
      .err ⟨"Config update failed: Could not download tarball. Reason: ENOSPC: no space left on device",
        .Config_Update_InstallFailed⟩ := by
  decide

/-- C9: every failure of lock acquisition — whatever its cause, e.g. a missing
or unwritable `cacheDir`, not only a concurrently held lock — throws the same
`InstallFailedError` with the message
"Config update failed: Another installation is already in progress!". -/
theorem install_lock_failure_uniform_error (env : InstallEnv) (v : String)
    (cfg0 : List (String × String)) (cause : String)
    (hreg : env.registryFetchOk = true) (hurl : env.tarballUrl.isSome = true)
    (hlock : env.lockErr = some cause) :
    (installConfigUpdate env v cfg0).result =
      .err ⟨"Config update failed: Another installation is already in progress!",
        .Config_Update_InstallFailed⟩ := by
  obtain ⟨u, hu⟩ := Option.isSome_iff_exists.mp hurl
  unfold installConfigUpdate
  simp [hreg, hu, hlock, throwWith]

/-- Witness for C9: a permission error on the lock file is reported as
"already in progress". -/
theorem install_lock_failure_uniform_error_witness :
    (installConfigUpdate
        { envAllOk with
          lockErr := some "EACCES: permission denied, open config-update.lock" }
        "1.2.3" []).result =
      .err ⟨"Config update failed: Another installation is already in progress!",
        .Config_Update_InstallFailed⟩ :=
  install_lock_failure_uniform_error _ "1.2.3" []
    "EACCES: permission denied, open config-update.lock" (by decide) (by decide) rfl

/-- C10: any failure inside the extract-and-replace phase — cleaning or
recreating `extracted/`, the `tar` run, deleting or recreating `configDir`,
copying the `.json` files, or writing the `version` stamp — surfaces as an
`InstallFailedError` whose message is exactly
"Config update failed: Could not extract tarball", with no underlying cause. -/
theorem install_extract_phase_uniform_error (env : InstallEnv) (v : String)
    (cfg0 : List (String × String))
    (hreg : env.registryFetchOk = true) (hurl : env.tarballUrl.isSome = true)
    (hlock : env.lockErr = none) (hmk : env.mkdtempErr = none)
    (hopen : env.openErr = none) (htr : env.transportErr = none)
    (hfail : env.deleteExtractedOk = false ∨ env.ensureExtractedOk = false ∨
      env.tarOk = false ∨ env.deleteConfigOk = false ∨ env.ensureConfigOk = false ∨
      env.copyOk = false ∨ env.writeVersionOk = false) :
    (installConfigUpdate env v cfg0).result =
      .err ⟨"Config update failed: Could not extract tarball",
        .Config_Update_InstallFailed⟩ := by
  obtain ⟨u, hu⟩ := Option.isSome_iff_exists.mp hurl
  unfold installConfigUpdate extractAndReplace
  simp only [hreg, hu, hlock, hmk, hopen, htr, Bool.not_true]
  repeat' split
  all_goals simp_all [throwWith, finishOk, extractTarballMsg, tarExtractOk]

/-- Witness for C10: a nonzero `tar` exit yields exactly the generic message. -/
theorem install_extract_phase_uniform_error_witness :
    (installConfigUpdate { envAllOk with tarOk := false } "1.2.3" []).result =
      .err ⟨"Config update failed: Could not extract tarball",
        .Config_Update_InstallFailed⟩ :=
  install_extract_phase_uniform_error { envAllOk with tarOk := false } "1.2.3" []
    (by decide) (by decide) (by decide) (by decide) (by decide) (by decide)
    (by decide)

theorem natCompare_swap (a b : Nat) : compare b a = (compare a b).swap := by
  rcases Nat.lt_trichotomy a b with h | h | h
  · rw [Nat.compare_eq_lt.mpr h, Nat.compare_eq_gt.mpr h]; rfl
  · rw [Nat.compare_eq_eq.mpr h, Nat.compare_eq_eq.mpr h.symm]; rfl
  · rw [Nat.compare_eq_gt.mpr h, Nat.compare_eq_lt.mpr h]; rfl

theorem cmpChar_eq_iff (a b : Char) : cmpChar a b = .eq ↔ a = b := by
  unfold cmpChar
  rw [Nat.compare_eq_eq]
  exact ⟨fun h => Char.ext (UInt32.ext h), fun h => by rw [h]⟩

theorem cmpChar_refl (a : Char) : cmpChar a a = .eq := (cmpChar_eq_iff a a).mpr rfl

theorem cmpChar_swap (a b : Char) : cmpChar b a = (cmpChar a b).swap :=
  natCompare_swap a.toNat b.toNat

theorem cmpChar_trans {a b c : Char} (h1 : cmpChar a b = .lt)
    (h2 : cmpChar b c = .lt) : cmpChar a c = .lt := by
  unfold cmpChar at h1 h2 ⊢
  rw [Nat.compare_eq_lt] at h1 h2 ⊢
  omega

theorem cmpCharList_eq_iff : ∀ (a b : List Char), cmpCharList a b = .eq ↔ a = b := by
  intro a
  induction a with
  | nil => intro b; cases b <;> simp [cmpCharList]
  | cons x xs ih =>
    intro b
    cases b with
    | nil => simp [cmpCharList]
    | cons y ys =>
      simp only [cmpCharList, List.cons.injEq]
      cases h : cmpChar x y
      · constructor
        · intro hh; cases hh
        · rintro ⟨hxy, -⟩
          rw [hxy, cmpChar_refl] at h; cases h
      · have hxy : x = y := (cmpChar_eq_iff x y).mp h
        simp [ih ys, hxy]
      · constructor
        · intro hh; cases hh
        · rintro ⟨hxy, -⟩
          rw [hxy, cmpChar_refl] at h; cases h

theorem cmpCharList_refl (a : List Char) : cmpCharList a a = .eq :=
  (cmpCharList_eq_iff a a).mpr rfl

theorem cmpCharList_swap : ∀ (a b : List Char), cmpCharList b a = (cmpCharList a b).swap := by
  intro a
  induction a with
  | nil => intro b; cases b <;> rfl
  | cons x xs ih =>
    intro b
    cases b with
    | nil => rfl
    | cons y ys =>
      simp only [cmpCharList, cmpChar_swap x y]
      cases h : cmpChar x y
      · rfl
      · exact ih ys
      · rfl

theorem cmpCharList_trans : ∀ {a b c : List Char}, cmpCharList a b = .lt →
    cmpCharList b c = .lt → cmpCharList a c = .lt := by
  intro a
  induction a with
  | nil =>
    intro b c h1 h2
    cases b with
    | nil => cases h1
    | cons y ys =>
      cases c with
      | nil => simp [cmpCharList] at h2
      | cons z zs => simp [cmpCharList]
  | cons x xs ih =>
    intro b c h1 h2
    cases b with
    | nil => cases h1
    | cons y ys =>
      cases c with
      | nil => simp [cmpCharList] at h2
      | cons z zs =>
        simp only [cmpCharList] at h1 h2 ⊢
        cases hxy : cmpChar x y <;> rw [hxy] at h1
        case lt =>
          cases hyz : cmpChar y z <;> rw [hyz] at h2
          case lt => rw [cmpChar_trans hxy hyz]
          case eq =>
            have hyzeq : y = z := (cmpChar_eq_iff y z).mp hyz
            subst hyzeq
            rw [hxy]
          case gt => cases h2
        case eq =>
          have hxz : x = y := (cmpChar_eq_iff x y).mp hxy
          subst hxz
          cases hyz : cmpChar x z <;> rw [hyz] at h2
          case eq => exact ih h1 h2
          case gt => cases h2
        case gt => cases h1

theorem cmpPreId_eq_iff : ∀ (a b : PreId), cmpPreId a b = .eq ↔ a = b
  | .num a, .num b => by simp [cmpPreId, Nat.compare_eq_eq]
  | .num a, .str b => by simp [cmpPreId]
  | .str a, .num b => by simp [cmpPreId]
  | .str a, .str b => by simp [cmpPreId, cmpCharList_eq_iff]

theorem cmpPreId_refl (a : PreId) : cmpPreId a a = .eq := (cmpPreId_eq_iff a a).mpr rfl

theorem cmpPreId_swap : ∀ (a b : PreId), cmpPreId b a = (cmpPreId a b).swap
  | .num a, .num b => natCompare_swap a b
  | .num _, .str _ => rfl
  | .str _, .num _ => rfl
  | .str a, .str b => cmpCharList_swap a b

theorem cmpPreId_trans : ∀ {a b c : PreId}, cmpPreId a b = .lt → cmpPreId b c = .lt →
    cmpPreId a c = .lt
  | .num a, .num b, .num c, h1, h2 => by
    simp only [cmpPreId, Nat.compare_eq_lt] at h1 h2 ⊢
    omega
  | .num _, .num _, .str _, _, _ => rfl
  | .num _, .str _, .num _, _, h2 => by simp [cmpPreId] at h2
  | .num _, .str _, .str _, _, _ => rfl
  | .str _, .num _, _, h1, _ => by simp [cmpPreId] at h1
  | .str a, .str b, .num c, _, h2 => by simp [cmpPreId] at h2
  | .str a, .str b, .str c, h1, h2 => cmpCharList_trans h1 h2

theorem cmpPreList_eq_iff : ∀ (a b : List PreId), cmpPreList a b = .eq ↔ a = b := by
  intro a
  induction a with
  | nil => intro b; cases b <;> simp [cmpPreList]
  | cons x xs ih =>
    intro b
    cases b with
    | nil => simp [cmpPreList]
    | cons y ys =>
      simp only [cmpPreList, List.cons.injEq]
      cases h : cmpPreId x y
      · constructor
        · intro hh; cases hh
        · rintro ⟨hxy, -⟩
          rw [hxy, cmpPreId_refl] at h; cases h
      · have hxy : x = y := (cmpPreId_eq_iff x y).mp h
        simp [ih ys, hxy]
      · constructor
        · intro hh; cases hh
        · rintro ⟨hxy, -⟩
          rw [hxy, cmpPreId_refl] at h; cases h

theorem cmpPreList_refl (a : List PreId) : cmpPreList a a = .eq :=
  (cmpPreList_eq_iff a a).mpr rfl

theorem cmpPreList_swap : ∀ (a b : List PreId), cmpPreList b a = (cmpPreList a b).swap := by
  intro a
  induction a with
  | nil => intro b; cases b <;> rfl
  | cons x xs ih =>
    intro b
    cases b with
    | nil => rfl
    | cons y ys =>
      simp only [cmpPreList, cmpPreId_swap x y]
      cases h : cmpPreId x y
      · rfl
      · exact ih ys
      · rfl

theorem cmpPreList_trans : ∀ {a b c : List PreId}, cmpPreList a b = .lt →
    cmpPreList b c = .lt → cmpPreList a c = .lt := by
  intro a
  induction a with
  | nil =>
    intro b c h1 h2
    cases b with
    | nil => cases h1
    | cons y ys =>
      cases c with
      | nil => simp [cmpPreList] at h2
      | cons z zs => simp [cmpPreList]
  | cons x xs ih =>
    intro b c h1 h2
    cases b with
    | nil => cases h1
    | cons y ys =>
      cases c with
      | nil => simp [cmpPreList] at h2
      | cons z zs =>
        simp only [cmpPreList] at h1 h2 ⊢
        cases hxy : cmpPreId x y <;> rw [hxy] at h1
        case lt =>
          cases hyz : cmpPreId y z <;> rw [hyz] at h2
          case lt => rw [cmpPreId_trans hxy hyz]
          case eq =>
            have hyzeq : y = z := (cmpPreId_eq_iff y z).mp hyz
            subst hyzeq
            rw [hxy]
          case gt => cases h2
        case eq =>
          have hxz : x = y := (cmpPreId_eq_iff x y).mp hxy
          subst hxz
          cases hyz : cmpPreId x z <;> rw [hyz] at h2
          case eq => exact ih h1 h2
          case gt => cases h2
        case gt => cases h1

theorem comparePre_eq_iff : ∀ (a b : List PreId), comparePre a b = .eq ↔ a = b
  | [], [] => by simp [comparePre]
  | [], _ :: _ => by simp [comparePre]
  | _ :: _, [] => by simp [comparePre]
  | x :: xs, y :: ys => by
    simp only [comparePre]
    exact cmpPreList_eq_iff (x :: xs) (y :: ys)

theorem comparePre_refl (a : List PreId) : comparePre a a = .eq :=
  (comparePre_eq_iff a a).mpr rfl

theorem comparePre_swap : ∀ (a b : List PreId), comparePre b a = (comparePre a b).swap
  | [], [] => rfl
  | [], _ :: _ => rfl
  | _ :: _, [] => rfl
  | x :: xs, y :: ys => cmpPreList_swap (x :: xs) (y :: ys)

theorem comparePre_trans : ∀ {a b c : List PreId}, comparePre a b = .lt →
    comparePre b c = .lt → comparePre a c = .lt
  | [], b, c, h1, _ => by cases b <;> simp [comparePre] at h1
  | x :: xs, [], c, _, h2 => by cases c <;> simp [comparePre] at h2
  | x :: xs, y :: ys, [], _, _ => by simp [comparePre]
  | x :: xs, y :: ys, z :: zs, h1, h2 => cmpPreList_trans h1 h2

theorem semverCompare_lt_iff (a b : SemVer) :
    semverCompare a b = .lt ↔
      (a.major < b.major ∨
       (a.major = b.major ∧ a.minor < b.minor) ∨
       (a.major = b.major ∧ a.minor = b.minor ∧ a.patch < b.patch) ∨
       (a.major = b.major ∧ a.minor = b.minor ∧ a.patch = b.patch ∧
        comparePre a.prerelease b.prerelease = .lt)) := by
  unfold semverCompare
  cases h1 : compare a.major b.major
  · rw [Nat.compare_eq_lt] at h1
    simp [h1]
  · rw [Nat.compare_eq_eq] at h1
    cases h2 : compare a.minor b.minor
    · rw [Nat.compare_eq_lt] at h2
      simp [h1, h2]
    · rw [Nat.compare_eq_eq] at h2
      cases h3 : compare a.patch b.patch
      · rw [Nat.compare_eq_lt] at h3
        simp [h1, h2, h3]
      · rw [Nat.compare_eq_eq] at h3
        simp [h1, h2, h3]
      · rw [Nat.compare_eq_gt] at h3
        constructor
        · intro hh; cases hh
        · intro hh
          rcases hh with h | ⟨u1, u2⟩ | ⟨u1, u2, u3⟩ | ⟨u1, u2, u3, u4⟩ <;> omega
    · rw [Nat.compare_eq_gt] at h2
      constructor
      · intro hh; cases hh
      · intro hh
        rcases hh with h | ⟨u1, u2⟩ | ⟨u1, u2, u3⟩ | ⟨u1, u2, u3, u4⟩ <;> omega
  · rw [Nat.compare_eq_gt] at h1
    constructor
    · intro hh; cases hh
    · intro hh
      rcases hh with h | ⟨u1, u2⟩ | ⟨u1, u2, u3⟩ | ⟨u1, u2, u3, u4⟩ <;> omega

theorem semverCompare_eq_iff (a b : SemVer) :
    semverCompare a b = .eq ↔
      (a.major = b.major ∧ a.minor = b.minor ∧ a.patch = b.patch ∧
       a.prerelease = b.prerelease) := by
  unfold semverCompare
  cases h1 : compare a.major b.major
  · rw [Nat.compare_eq_lt] at h1
    constructor
    · intro hh; cases hh
    · rintro ⟨h, -⟩; omega
  · rw [Nat.compare_eq_eq] at h1
    cases h2 : compare a.minor b.minor
    · rw [Nat.compare_eq_lt] at h2
      constructor
      · intro hh; cases hh
      · rintro ⟨-, h, -⟩; omega
    · rw [Nat.compare_eq_eq] at h2
      cases h3 : compare a.patch b.patch
      · rw [Nat.compare_eq_lt] at h3
        constructor
        · intro hh; cases hh
        · rintro ⟨-, -, h, -⟩; omega
      · rw [Nat.compare_eq_eq] at h3
        simp [h1, h2, h3, comparePre_eq_iff]
      · rw [Nat.compare_eq_gt] at h3
        constructor
        · intro hh; cases hh
        · rintro ⟨-, -, h, -⟩; omega
    · rw [Nat.compare_eq_gt] at h2
      constructor
      · intro hh; cases hh
      · rintro ⟨-, h, -⟩; omega
  · rw [Nat.compare_eq_gt] at h1
    constructor
    · intro hh; cases hh
    · rintro ⟨h, -⟩; omega

theorem semverCompare_refl (a : SemVer) : semverCompare a a = .eq :=
  (semverCompare_eq_iff a a).mpr ⟨rfl, rfl, rfl, rfl⟩

theorem semverCompare_swap (a b : SemVer) :
    semverCompare b a = (semverCompare a b).swap := by
  unfold semverCompare
  rw [natCompare_swap a.major b.major, natCompare_swap a.minor b.minor,
    natCompare_swap a.patch b.patch, comparePre_swap a.prerelease b.prerelease]
  cases compare a.major b.major <;> cases compare a.minor b.minor <;>
    cases compare a.patch b.patch <;> rfl

theorem semverCompare_gt_iff_lt (a b : SemVer) :
    semverCompare a b = .gt ↔ semverCompare b a = .lt := by
  rw [semverCompare_swap b a]
  cases semverCompare b a <;> decide

theorem semverCompare_congr_left {a b : SemVer} (h : semverCompare a b = .eq)
    (c : SemVer) : semverCompare a c = semverCompare b c := by
  obtain ⟨h1, h2, h3, h4⟩ := (semverCompare_eq_iff a b).mp h
  unfold semverCompare
  rw [h1, h2, h3, h4]

theorem semverCompare_congr_right {a b c : SemVer} (h : semverCompare b c = .eq) :
    semverCompare a b = semverCompare a c := by
  obtain ⟨h1, h2, h3, h4⟩ := (semverCompare_eq_iff b c).mp h
  unfold semverCompare
  rw [h1, h2, h3, h4]

theorem semverCompare_trans {a b c : SemVer} (h1 : semverCompare a b = .lt)
    (h2 : semverCompare b c = .lt) : semverCompare a c = .lt := by
  rw [semverCompare_lt_iff] at h1 h2 ⊢
  rcases h1 with h1 | ⟨e1, h1⟩ | ⟨e1, e2, h1⟩ | ⟨e1, e2, e3, h1⟩ <;>
    rcases h2 with h2 | ⟨f1, h2⟩ | ⟨f1, f2, h2⟩ | ⟨f1, f2, f3, h2⟩ <;>
      first
        | exact Or.inl (by omega)
        | exact Or.inr (Or.inl ⟨by omega, by omega⟩)
        | exact Or.inr (Or.inr (Or.inl ⟨by omega, by omega, by omega⟩))
        | exact Or.inr (Or.inr (Or.inr ⟨by omega, by omega, by omega,
            comparePre_trans h1 h2⟩))

theorem semverCompare_ne_gt_trans {a b c : SemVer} (h1 : semverCompare a b ≠ .gt)
    (h2 : semverCompare b c ≠ .gt) : semverCompare a c ≠ .gt := by
  cases hab : semverCompare a b with
  | gt => exact absurd hab h1
  | eq => rw [semverCompare_congr_left hab c]; exact h2
  | lt =>
    cases hbc : semverCompare b c with
    | gt => exact absurd hbc h2
    | eq => rw [← semverCompare_congr_right hbc]; rw [hab]; decide
    | lt => rw [semverCompare_trans hab hbc]; decide

theorem testComp_gt_iff (v c : SemVer) :
    testComp v (.gt, c) = true ↔ semverCompare v c = .gt := by
  simp only [testComp]
  cases h : semverCompare v c <;> simp

theorem testComp_lt_iff (v c : SemVer) :
    testComp v (.lt, c) = true ↔ semverCompare v c = .lt := by
  simp only [testComp]
  cases h : semverCompare v c <;> simp

theorem rangeSatisfies_pair (c n v : SemVer) :
    rangeSatisfies [(.gt, c), (.lt, n)] v = true ↔
      (semverCompare v c = .gt ∧ semverCompare v n = .lt) := by
  simp [rangeSatisfies, Bool.and_eq_true, testComp_gt_iff, testComp_lt_iff]

/-! ## Behaviour of the `maxSatisfying` fold -/

theorem satOK_parse (comps : List (CompOp × SemVer)) (w : String)
    (h : satOK comps w = true) :
    ∃ wv, parseSemVerStr w = some wv ∧ rangeSatisfies comps wv = true := by
  unfold satOK at h
  cases hp : parseSemVerStr w with
  | none => rw [hp] at h; cases h
  | some wv => rw [hp] at h; exact ⟨wv, rfl, h⟩

theorem svLe_refl_of_parse {m : String} {mv : SemVer}
    (h : parseSemVerStr m = some mv) : svLe m m :=
  ⟨mv, mv, h, h, by rw [semverCompare_refl]; decide⟩

theorem svLe_trans {a b c : String} (h1 : svLe a b) (h2 : svLe b c) : svLe a c := by
  obtain ⟨av, bv, hpa, hpb, hab⟩ := h1
  obtain ⟨bv', cv, hpb', hpc, hbc⟩ := h2
  rw [hpb] at hpb'
  injection hpb' with h'
  subst h'
  exact ⟨av, cv, hpa, hpc, semverCompare_ne_gt_trans hab hbc⟩

theorem maxStep_spec (comps : List (CompOp × SemVer)) (acc : Option String)
    (v : String) (haccOK : ∀ m, acc = some m → satOK comps m = true) :
    (maxStep comps acc v = acc ∧ satOK comps v = false) ∨
    (satOK comps v = true ∧
      ((acc = none ∧ maxStep comps acc v = some v) ∨
       (∃ m mv vv, acc = some m ∧ parseSemVerStr m = some mv ∧
         parseSemVerStr v = some vv ∧
         ((semverCompare mv vv = .lt ∧ maxStep comps acc v = some v) ∨
          (semverCompare mv vv ≠ .lt ∧ maxStep comps acc v = some m))))) := by
  unfold maxStep satOK
  cases hp : parseSemVerStr v with
  | none => exact Or.inl ⟨rfl, rfl⟩
  | some sv =>
    dsimp only
    by_cases hs : rangeSatisfies comps sv = true
    · rw [if_pos hs]
      refine Or.inr ⟨hs, ?_⟩
      cases hacc : acc with
      | none => exact Or.inl ⟨rfl, rfl⟩
      | some m =>
        dsimp only
        have hsm := haccOK m hacc
        unfold satOK at hsm
        cases hpm : parseSemVerStr m with
        | none => rw [hpm] at hsm; cases hsm
        | some mv =>
          dsimp only
          refine Or.inr ⟨m, mv, sv, rfl, hpm, rfl, ?_⟩
          cases hcmp : semverCompare mv sv
          · exact Or.inl ⟨rfl, rfl⟩
          · exact Or.inr ⟨by decide, rfl⟩
          · exact Or.inr ⟨by decide, rfl⟩
    · rw [if_neg hs]
      exact Or.inl ⟨rfl, by simpa using hs⟩

theorem maxStep_accOK (comps : List (CompOp × SemVer)) (acc : Option String)
    (v : String) (haccOK : ∀ m, acc = some m → satOK comps m = true) :
    ∀ m, maxStep comps acc v = some m → satOK comps m = true := by
  rcases maxStep_spec comps acc v haccOK with ⟨heq, -⟩ | ⟨hsv, hcase⟩
  · intro m hm; rw [heq] at hm; exact haccOK m hm
  · rcases hcase with ⟨-, heq⟩ | ⟨m0, m0v, vv, hacc, -, -, hcase2⟩
    · intro m hm
      rw [heq] at hm
      injection hm with h'
      subst h'
      exact hsv
    · rcases hcase2 with ⟨-, heq⟩ | ⟨-, heq⟩
      · intro m hm
        rw [heq] at hm
        injection hm with h'
        subst h'
        exact hsv
      · intro m hm
        rw [heq] at hm
        injection hm with h'
        subst h'
        exact haccOK _ hacc

theorem foldl_maxStep_none (comps : List (CompOp × SemVer)) :
    ∀ (l : List String) (acc : Option String),
      (∀ m, acc = some m → satOK comps m = true) →
      l.foldl (maxStep comps) acc = none →
      acc = none ∧ ∀ w ∈ l, satOK comps w = false := by
  intro l
  induction l with
  | nil =>
    intro acc _ h
    rw [List.foldl_nil] at h
    exact ⟨h, fun w hw => absurd hw (List.not_mem_nil w)⟩
  | cons v t ih =>
    intro acc haccOK h
    rw [List.foldl_cons] at h
    obtain ⟨hstep, htail⟩ := ih _ (maxStep_accOK comps acc v haccOK) h
    rcases maxStep_spec comps acc v haccOK with ⟨heq, hsv⟩ | ⟨hsv, hcase⟩
    · rw [heq] at hstep
      refine ⟨hstep, ?_⟩
      intro w hw
      rcases List.mem_cons.mp hw with rfl | hwt
      · exact hsv
      · exact htail w hwt
    · rcases hcase with ⟨-, heq⟩ | ⟨m0, m0v, vv, -, -, -, hcase2⟩
      · rw [heq] at hstep; cases hstep
      · rcases hcase2 with ⟨-, heq⟩ | ⟨-, heq⟩ <;> rw [heq] at hstep <;> cases hstep

theorem foldl_maxStep_max (comps : List (CompOp × SemVer)) :
    ∀ (l : List String) (acc : Option String) (r : String),
      (∀ m, acc = some m → satOK comps m = true) →
      l.foldl (maxStep comps) acc = some r →
      ((r ∈ l ∧ satOK comps r = true) ∨ acc = some r) ∧
      (∀ w ∈ l, satOK comps w = true → svLe w r) ∧
      (∀ m, acc = some m → svLe m r) := by
  intro l
  induction l with
  | nil =>
    intro acc r haccOK h
    rw [List.foldl_nil] at h
    have hsr := haccOK r h
    obtain ⟨rv, hpr, -⟩ := satOK_parse comps r hsr
    refine ⟨Or.inr h, fun w hw => absurd hw (List.not_mem_nil w), ?_⟩
    intro m hm
    rw [h] at hm
    injection hm with h'
    subst h'
    exact svLe_refl_of_parse hpr
  | cons v t ih =>
    intro acc r haccOK h
    rw [List.foldl_cons] at h
    obtain ⟨horig, hmax, haccle⟩ := ih _ r (maxStep_accOK comps acc v haccOK) h
    rcases maxStep_spec comps acc v haccOK with ⟨heq, hsv⟩ | ⟨hsv, hcase⟩
    · rw [heq] at horig haccle
      refine ⟨?_, ?_, haccle⟩
      · rcases horig with ⟨hrl, hsr⟩ | hacc
        · exact Or.inl ⟨List.mem_cons_of_mem _ hrl, hsr⟩
        · exact Or.inr hacc
      · intro w hw hws
        rcases List.mem_cons.mp hw with rfl | hwt
        · rw [hws] at hsv; cases hsv
        · exact hmax w hwt hws
    · rcases hcase with ⟨hacc, heq⟩ | ⟨m0, m0v, vv, hacc, hpm, hpv, hcase2⟩
      · rw [heq] at horig haccle
        have hvle : svLe v r := haccle v rfl
        refine ⟨?_, ?_, ?_⟩
        · rcases horig with ⟨hrl, hsr⟩ | hvr
          · exact Or.inl ⟨List.mem_cons_of_mem _ hrl, hsr⟩
          · injection hvr with h'
            subst h'
            exact Or.inl ⟨List.mem_cons_self _ _, hsv⟩
        · intro w hw hws
          rcases List.mem_cons.mp hw with rfl | hwt
          · exact hvle
          · exact hmax w hwt hws
        · intro m hm
          rw [hacc] at hm
          cases hm
      · rcases hcase2 with ⟨hlt, heq⟩ | ⟨hnlt, heq⟩
        · rw [heq] at horig haccle
          have hvle : svLe v r := haccle v rfl
          have hm0le : svLe m0 r :=
            svLe_trans ⟨m0v, vv, hpm, hpv, by rw [hlt]; decide⟩ hvle
          refine ⟨?_, ?_, ?_⟩
          · rcases horig with ⟨hrl, hsr⟩ | hvr
            · exact Or.inl ⟨List.mem_cons_of_mem _ hrl, hsr⟩
            · injection hvr with h'
              subst h'
              exact Or.inl ⟨List.mem_cons_self _ _, hsv⟩
          · intro w hw hws
            rcases List.mem_cons.mp hw with rfl | hwt
            · exact hvle
            · exact hmax w hwt hws
          · intro m hm
            rw [hacc] at hm
            injection hm with h'
            subst h'
            exact hm0le
        · rw [heq] at horig haccle
          have hm0le : svLe m0 r := haccle m0 rfl
          have hvle : svLe v r := by
            refine svLe_trans ⟨vv, m0v, hpv, hpm, ?_⟩ hm0le
            intro hgt
            exact hnlt ((semverCompare_gt_iff_lt vv m0v).mp hgt)
          refine ⟨?_, ?_, ?_⟩
          · rcases horig with ⟨hrl, hsr⟩ | hm0r
            · exact Or.inl ⟨List.mem_cons_of_mem _ hrl, hsr⟩
            · rw [← hacc] at hm0r
              exact Or.inr hm0r
          · intro w hw hws
            rcases List.mem_cons.mp hw with rfl | hwt
            · exact hvle
            · exact hmax w hwt hws
          · intro m hm
            rw [hacc] at hm
            injection hm with h'
            subst h'
            exact hm0le

/-! ## Consumption facts about the semver parser -/

theorem all_takeWhile (p : Char → Bool) (l : List Char) :
    (l.takeWhile p).all p = true :=
  List.all_eq_true.mpr (fun _ hc => List.mem_takeWhile_imp hc)

theorem goodChar_of_isDigit {c : Char} (h : isDigit c = true) : goodChar c = true := by
  simp [goodChar, isIdentChar, h]

theorem goodChar_of_isIdentChar {c : Char} (h : isIdentChar c = true) :
    goodChar c = true := by
  simp [goodChar, h]

theorem all_good_of_all_digit {l : List Char} (h : l.all isDigit = true) :
    l.all goodChar = true :=
  List.all_eq_true.mpr (fun c hc => goodChar_of_isDigit (List.all_eq_true.mp h c hc))

theorem all_good_of_all_ident {l : List Char} (h : l.all isIdentChar = true) :
    l.all goodChar = true :=
  List.all_eq_true.mpr (fun c hc => goodChar_of_isIdentChar (List.all_eq_true.mp h c hc))

theorem parseNumericId_consumed {cs : List Char} {n : Nat} {rest : List Char}
    (h : parseNumericId cs = some (n, rest)) :
    ∃ ds, cs = ds ++ rest ∧ ds.all isDigit = true := by
  simp only [parseNumericId] at h
  have hrest : rest = cs.dropWhile isDigit := by
    cases hds : cs.takeWhile isDigit with
    | nil => rw [hds] at h; cases h
    | cons d ds' =>
      rw [hds] at h
      cases ds' with
      | nil =>
        dsimp only at h
        simp only [Option.some.injEq, Prod.mk.injEq] at h
        exact h.2.symm
      | cons d2 t =>
        dsimp only at h
        by_cases h0 : d = '0'
        · rw [if_pos h0] at h; cases h
        · rw [if_neg h0] at h
          simp only [Option.some.injEq, Prod.mk.injEq] at h
          exact h.2.symm
  refine ⟨cs.takeWhile isDigit, ?_, all_takeWhile isDigit cs⟩
  rw [hrest]
  exact (List.takeWhile_append_dropWhile isDigit cs).symm

theorem parsePreId_consumed {cs : List Char} {a : PreId} {rest : List Char}
    (h : parsePreId cs = some (a, rest)) :
    ∃ ds, cs = ds ++ rest ∧ ds.all isIdentChar = true := by
  simp only [parsePreId] at h
  have hrest : rest = cs.dropWhile isIdentChar := by
    cases hds : cs.takeWhile isIdentChar with
    | nil => rw [hds] at h; cases h
    | cons d ds' =>
      rw [hds] at h
      dsimp only at h
      by_cases hall : (d :: ds').all isDigit = true
      · rw [if_pos hall] at h
        by_cases h0 : (d = '0' && !ds'.isEmpty) = true
        · rw [if_pos h0] at h; cases h
        · rw [if_neg h0] at h
          simp only [Option.some.injEq, Prod.mk.injEq] at h
          exact h.2.symm
      · rw [if_neg hall] at h
        simp only [Option.some.injEq, Prod.mk.injEq] at h
        exact h.2.symm
  refine ⟨cs.takeWhile isIdentChar, ?_, all_takeWhile isIdentChar cs⟩
  rw [hrest]
  exact (List.takeWhile_append_dropWhile isIdentChar cs).symm

theorem parseBuildId_consumed {cs : List Char} {a : List Char} {rest : List Char}
    (h : parseBuildId cs = some (a, rest)) :
    ∃ ds, cs = ds ++ rest ∧ ds.all isIdentChar = true := by
  simp only [parseBuildId] at h
  have hrest : rest = cs.dropWhile isIdentChar := by
    cases hds : cs.takeWhile isIdentChar with
    | nil => rw [hds] at h; cases h
    | cons d ds' =>
      rw [hds] at h
      dsimp only at h
      simp only [Option.some.injEq, Prod.mk.injEq] at h
      exact h.2.symm
  refine ⟨cs.takeWhile isIdentChar, ?_, all_takeWhile isIdentChar cs⟩
  rw [hrest]
  exact (List.takeWhile_append_dropWhile isIdentChar cs).symm

theorem parseDotSep_consumed {α : Type}
    {p : List Char → Option (α × List Char)}
    (hp : ∀ {cs a rest}, p cs = some (a, rest) →
      ∃ ds, cs = ds ++ rest ∧ ds.all goodChar = true) :
    ∀ {fuel : Nat} {cs : List Char} {as : List α} {rest : List Char},
      parseDotSep p fuel cs = some (as, rest) →
      ∃ ds, cs = ds ++ rest ∧ ds.all goodChar = true := by
  intro fuel
  induction fuel with
  | zero => intro cs as rest h; cases h
  | succ f ih =>
    intro cs as rest h
    simp only [parseDotSep] at h
    cases hone : p cs with
    | none => rw [hone] at h; cases h
    | some ar =>
      obtain ⟨a1, rest1⟩ := ar
      rw [hone] at h
      dsimp only at h
      obtain ⟨ds1, hcs, hds1⟩ := hp hone
      cases rest1 with
      | nil =>
        dsimp only at h
        simp only [Option.some.injEq, Prod.mk.injEq] at h
        refine ⟨ds1, ?_, hds1⟩
        rw [hcs, ← h.2]
      | cons c r2 =>
        dsimp only at h
        by_cases hc : c = '.'
        · rw [if_pos hc] at h
          cases hrec : parseDotSep p f r2 with
          | none => rw [hrec] at h; cases h
          | some ar2 =>
            obtain ⟨as2, r3⟩ := ar2
            rw [hrec] at h
            dsimp only at h
            simp only [Option.some.injEq, Prod.mk.injEq] at h
            obtain ⟨ds2, hr2, hds2⟩ := ih hrec
            refine ⟨ds1 ++ c :: ds2, ?_, ?_⟩
            · rw [hcs, hr2, ← h.2]
              simp
            · rw [List.all_append, hds1, List.all_cons, hds2, hc]
              decide
        · rw [if_neg hc] at h
          simp only [Option.some.injEq, Prod.mk.injEq] at h
          refine ⟨ds1, ?_, hds1⟩
          rw [hcs, ← h.2]

theorem parseSuffix_good {cs : List Char} {x : List PreId × List (List Char)}
    (h : parseSuffix cs = some x) : cs.all goodChar = true := by
  unfold parseSuffix at h
  cases cs with
  | nil => rfl
  | cons c rest =>
    dsimp only at h
    by_cases hc : c = '-'
    · rw [if_pos hc] at h
      cases hpre : parseDotSep parsePreId (rest.length + 1) rest with
      | none => rw [hpre] at h; cases h
      | some pr =>
        obtain ⟨pre, r⟩ := pr
        rw [hpre] at h
        dsimp only at h
        obtain ⟨ds1, hrest, hds1⟩ :=
          parseDotSep_consumed
            (fun hh => by
              obtain ⟨ds, hcs', hds⟩ := parsePreId_consumed hh
              exact ⟨ds, hcs', all_good_of_all_ident hds⟩) hpre
        cases r with
        | nil =>
          subst hc
          rw [List.all_cons, hrest]
          simp only [List.append_nil]
          rw [hds1]
          decide
        | cons c2 r2 =>
          dsimp only at h
          by_cases hc2 : c2 = '+'
          · rw [if_pos hc2] at h
            cases hbld : parseDotSep parseBuildId (r2.length + 1) r2 with
            | none => rw [hbld] at h; cases h
            | some br =>
              obtain ⟨bld, r3⟩ := br
              rw [hbld] at h
              dsimp only at h
              obtain ⟨ds2, hr2, hds2⟩ :=
                parseDotSep_consumed
                  (fun hh => by
                    obtain ⟨ds, hcs', hds⟩ := parseBuildId_consumed hh
                    exact ⟨ds, hcs', all_good_of_all_ident hds⟩) hbld
              have hr3 : r3 = [] := by
                cases hr3e : r3.isEmpty
                · rw [hr3e] at h; cases h
                · exact List.isEmpty_iff.mp hr3e
              subst hc hc2
              rw [List.all_cons, hrest, hr2, hr3]
              simp only [List.append_nil]
              rw [List.all_append, hds1, List.all_cons, hds2]
              decide
          · rw [if_neg hc2] at h; cases h
    · rw [if_neg hc] at h
      by_cases hcp : c = '+'
      · rw [if_pos hcp] at h
        cases hbld : parseDotSep parseBuildId (rest.length + 1) rest with
        | none => rw [hbld] at h; cases h
        | some br =>
          obtain ⟨bld, r3⟩ := br
          rw [hbld] at h
          dsimp only at h
          obtain ⟨ds2, hrest, hds2⟩ :=
            parseDotSep_consumed
              (fun hh => by
                obtain ⟨ds, hcs', hds⟩ := parseBuildId_consumed hh
                exact ⟨ds, hcs', all_good_of_all_ident hds⟩) hbld
          have hr3 : r3 = [] := by
            cases hr3e : r3.isEmpty
            · rw [hr3e] at h; cases h
            · exact List.isEmpty_iff.mp hr3e
          subst hcp
          rw [List.all_cons, hrest, hr3]
          simp only [List.append_nil]
          rw [hds2]
          decide
      · rw [if_neg hcp] at h; cases h

theorem parseSemVerChars_nil : parseSemVerChars [] = none := rfl

theorem stripV_good {cs : List Char} (h : (stripV cs).all goodChar = true) :
    cs.all goodChar = true := by
  cases cs with
  | nil => rfl
  | cons c rest =>
    by_cases hc : c = 'v'
    · simp only [stripV, if_pos hc] at h
      rw [List.all_cons, h, hc]
      decide
    · simpa only [stripV, if_neg hc] using h

theorem parseSemVerChars_good {cs0 : List Char} {v : SemVer}
    (h : parseSemVerChars cs0 = some v) : cs0.all goodChar = true := by
  simp only [parseSemVerChars] at h
  apply stripV_good
  generalize hcs : stripV cs0 = cs' at h
  cases h1 : parseNumericId cs' with
  | none => rw [h1] at h; cases h
  | some mr =>
    obtain ⟨maj, r1⟩ := mr
    rw [h1] at h
    dsimp only at h
    obtain ⟨ds1, hcs1, hds1⟩ := parseNumericId_consumed h1
    cases r1 with
    | nil => cases h
    | cons c r2 =>
      dsimp only at h
      by_cases hc : c = '.'
      · rw [if_pos hc] at h
        cases h2 : parseNumericId r2 with
        | none => rw [h2] at h; cases h
        | some mr2 =>
          obtain ⟨mino, r3⟩ := mr2
          rw [h2] at h
          dsimp only at h
          obtain ⟨ds2, hcs2, hds2⟩ := parseNumericId_consumed h2
          cases r3 with
          | nil => cases h
          | cons c2 r4 =>
            dsimp only at h
            by_cases hc2 : c2 = '.'
            · rw [if_pos hc2] at h
              cases h3 : parseNumericId r4 with
              | none => rw [h3] at h; cases h
              | some mr3 =>
                obtain ⟨pat, r5⟩ := mr3
                rw [h3] at h
                dsimp only at h
                obtain ⟨ds3, hcs3, hds3⟩ := parseNumericId_consumed h3
                cases h4 : parseSuffix r5 with
                | none => rw [h4] at h; cases h
                | some pb =>
                  have h5 := parseSuffix_good h4
                  subst hc hc2
                  rw [hcs1, hcs2, hcs3]
                  rw [List.all_append, all_good_of_all_digit hds1, List.all_cons,
                    List.all_append, all_good_of_all_digit hds2, List.all_cons,
                    List.all_append, all_good_of_all_digit hds3, h5]
                  decide
            · rw [if_neg hc2] at h; cases h
      · rw [if_neg hc] at h; cases h

/-! ## Decimal printing round-trips through the parser -/

theorem natToCharsAux_congr : ∀ (f1 f2 n : Nat) (acc : List Char),
    n < f1 → n < f2 → natToCharsAux f1 n acc = natToCharsAux f2 n acc := by
  intro f1
  induction f1 with
  | zero => intro f2 n acc h1 _; omega
  | succ g ih =>
    intro f2 n acc h1 h2
    cases f2 with
    | zero => omega
    | succ f2' =>
      simp only [natToCharsAux]
      by_cases hn : n < 10
      · rw [if_pos hn, if_pos hn]
      · rw [if_neg hn, if_neg hn]
        have hd : n / 10 < n := Nat.div_lt_self (by omega) (by omega)
        exact ih f2' (n / 10) _ (by omega) (by omega)

theorem natToCharsAux_acc : ∀ (f n : Nat) (acc : List Char), n < f →
    natToCharsAux f n acc = natToCharsAux f n [] ++ acc := by
  intro f
  induction f with
  | zero => intro n acc h; omega
  | succ g ih =>
    intro n acc h
    simp only [natToCharsAux]
    by_cases hn : n < 10
    · rw [if_pos hn, if_pos hn]
      rfl
    · rw [if_neg hn, if_neg hn]
      have hd : n / 10 < n := Nat.div_lt_self (by omega) (by omega)
      rw [ih (n / 10) _ (by omega), ih (n / 10) [Nat.digitChar (n % 10)] (by omega)]
      simp

theorem natToChars_lt10 {n : Nat} (h : n < 10) : natToChars n = [Nat.digitChar n] := by
  unfold natToChars natToCharsAux
  rw [if_pos h]

theorem natToChars_ge10 {n : Nat} (h : 10 ≤ n) :
    natToChars n = natToChars (n / 10) ++ [Nat.digitChar (n % 10)] := by
  have hd : n / 10 < n := Nat.div_lt_self (by omega) (by omega)
  unfold natToChars
  rw [show natToCharsAux (n + 1) n [] =
      natToCharsAux n (n / 10) [Nat.digitChar (n % 10)] from by
    simp only [natToCharsAux]
    rw [if_neg (by omega)]]
  rw [natToCharsAux_acc n (n / 10) _ (by omega)]
  congr 1
  exact natToCharsAux_congr n (n / 10 + 1) (n / 10) [] (by omega) (by omega)

theorem digitChar_isDigit {d : Nat} (h : d < 10) : isDigit (Nat.digitChar d) = true := by
  interval_cases d <;> decide

theorem digitVal_digitChar {d : Nat} (h : d < 10) : digitVal (Nat.digitChar d) = d := by
  interval_cases d <;> decide

theorem digitChar_ne_zero {d : Nat} (h1 : 0 < d) (h2 : d < 10) :
    Nat.digitChar d ≠ '0' := by
  interval_cases d <;> decide

theorem natToChars_all_digits (n : Nat) : (natToChars n).all isDigit = true := by
  induction n using Nat.strong_induction_on with
  | _ n ih =>
    by_cases h : n < 10
    · rw [natToChars_lt10 h]
      simp [digitChar_isDigit h]
    · rw [natToChars_ge10 (by omega)]
      have hd : n / 10 < n := Nat.div_lt_self (by omega) (by omega)
      rw [List.all_append]
      simp [ih (n / 10) hd, digitChar_isDigit (Nat.mod_lt n (by omega))]

theorem natToChars_ne_nil (n : Nat) : natToChars n ≠ [] := by
  by_cases h : n < 10
  · rw [natToChars_lt10 h]; simp
  · rw [natToChars_ge10 (by omega)]; simp

theorem natToChars_head_ne_zero : ∀ (n : Nat), 0 < n →
    ∀ {d : Char} {ds : List Char}, natToChars n = d :: ds → d ≠ '0' := by
  intro n
  induction n using Nat.strong_induction_on with
  | _ n ih =>
    intro hpos d ds hshape
    by_cases h : n < 10
    · rw [natToChars_lt10 h] at hshape
      injection hshape with h1 _
      rw [← h1]
      exact digitChar_ne_zero hpos h
    · rw [natToChars_ge10 (by omega)] at hshape
      have hd : n / 10 < n := Nat.div_lt_self (by omega) (by omega)
      cases hh : natToChars (n / 10) with
      | nil => exact absurd hh (natToChars_ne_nil _)
      | cons d0 t0 =>
        rw [hh, List.cons_append] at hshape
        injection hshape with h1 _
        rw [← h1]
        exact ih (n / 10) hd (by omega) hh

theorem charsToNat_append_single (l : List Char) (c : Char) :
    charsToNat (l ++ [c]) = 10 * charsToNat l + digitVal c := by
  unfold charsToNat
  rw [List.foldl_append]
  rfl

theorem charsToNat_natToChars (n : Nat) : charsToNat (natToChars n) = n := by
  induction n using Nat.strong_induction_on with
  | _ n ih =>
    by_cases h : n < 10
    · rw [natToChars_lt10 h]
      show 10 * 0 + digitVal (Nat.digitChar n) = n
      rw [digitVal_digitChar h]
      omega
    · rw [natToChars_ge10 (by omega), charsToNat_append_single]
      have hd : n / 10 < n := Nat.div_lt_self (by omega) (by omega)
      rw [ih (n / 10) hd, digitVal_digitChar (Nat.mod_lt n (by omega))]
      omega

theorem takeWhile_append_of_all {p : Char → Bool} :
    ∀ (ds rest : List Char), ds.all p = true →
      (∀ c cs', rest = c :: cs' → p c = false) →
      (ds ++ rest).takeWhile p = ds ∧ (ds ++ rest).dropWhile p = rest := by
  intro ds
  induction ds with
  | nil =>
    intro rest _ hrest
    constructor
    · cases rest with
      | nil => rfl
      | cons c cs' => simp [List.takeWhile_cons, hrest c cs' rfl]
    · cases rest with
      | nil => rfl
      | cons c cs' => simp [List.dropWhile_cons, hrest c cs' rfl]
  | cons d ds' ih =>
    intro rest hall hrest
    simp only [List.all_cons, Bool.and_eq_true] at hall
    obtain ⟨hd, hall'⟩ := hall
    obtain ⟨ht, hdr⟩ := ih rest hall' hrest
    constructor
    · simp [List.takeWhile_cons, hd, ht]
    · simp [List.dropWhile_cons, hd, hdr]

theorem parseNumericId_natToChars (n : Nat) (rest : List Char)
    (hrest : ∀ c cs', rest = c :: cs' → isDigit c = false) :
    parseNumericId (natToChars n ++ rest) = some (n, rest) := by
  obtain ⟨htake, hdrop⟩ :=
    takeWhile_append_of_all (natToChars n) rest (natToChars_all_digits n) hrest
  simp only [parseNumericId, htake, hdrop]
  cases hshape : natToChars n with
  | nil => exact absurd hshape (natToChars_ne_nil n)
  | cons d ds =>
    cases ds with
    | nil =>
      dsimp only
      have hc := charsToNat_natToChars n
      rw [hshape] at hc
      have hdv : digitVal d = n := by
        have : charsToNat [d] = 10 * 0 + digitVal d := rfl
        rw [this] at hc
        omega
      rw [hdv]
    | cons d2 t =>
      dsimp only
      have hpos : 0 < n := by
        rcases Nat.eq_zero_or_pos n with rfl | hp
        · rw [natToChars_lt10 (by omega)] at hshape
          simp at hshape
        · exact hp
      have hne : d ≠ '0' := natToChars_head_ne_zero n hpos hshape
      rw [if_neg hne]
      have hc := charsToNat_natToChars n
      rw [hshape] at hc
      rw [hc]

theorem head_append_digit {l1 l2 : List Char} (h1 : l1.all isDigit = true)
    (hne : l1 ≠ []) : ∀ c cs', l1 ++ l2 = c :: cs' → isDigit c = true := by
  cases l1 with
  | nil => exact absurd rfl hne
  | cons d ds =>
    intro c cs' h
    rw [List.cons_append] at h
    injection h with hh _
    simp only [List.all_cons, Bool.and_eq_true] at h1
    rw [← hh]
    exact h1.1

theorem stripV_of_ne {cs : List Char} (h : ∀ c cs', cs = c :: cs' → c ≠ 'v') :
    stripV cs = cs := by
  cases cs with
  | nil => rfl
  | cons c rest => simp [stripV, h c rest rfl]

theorem parseSemVerChars_stable (M mi p : Nat) :
    parseSemVerChars (natToChars M ++ ('.' :: (natToChars mi ++ ('.' :: natToChars p)))) =
      some ⟨M, mi, p, [], []⟩ := by
  have hdig : ∀ {n : Nat} (l2 : List Char) c cs',
      natToChars n ++ l2 = c :: cs' → isDigit c = true :=
    fun {n} l2 c cs' hh =>
      head_append_digit (natToChars_all_digits n) (natToChars_ne_nil n) c cs' hh
  have hM1 := parseNumericId_natToChars M ('.' :: (natToChars mi ++ ('.' :: natToChars p)))
    (fun c cs' hh => by injection hh with h1 _; rw [← h1]; decide)
  have hm1 := parseNumericId_natToChars mi ('.' :: natToChars p)
    (fun c cs' hh => by injection hh with h1 _; rw [← h1]; decide)
  have hp1 : parseNumericId (natToChars p) = some (p, []) := by
    have := parseNumericId_natToChars p [] (fun c cs' hh => by cases hh)
    simpa using this
  simp only [parseSemVerChars]
  rw [stripV_of_ne (fun c cs' hh => by
    have := hdig _ c cs' hh
    intro hv
    rw [hv] at this
    exact absurd this (by decide))]
  rw [hM1]
  dsimp only
  rw [if_pos rfl, hm1]
  dsimp only
  rw [if_pos rfl, hp1]
  rfl

/-! ## The update range string parses back to the two comparators -/

theorem splitOnSpaceAux_cons_ne (c : Char) (rest acc : List Char) (hc : ¬(c = ' ')) :
    splitOnSpaceAux (c :: rest) acc = splitOnSpaceAux rest (c :: acc) := by
  simp only [splitOnSpaceAux]
  rw [if_neg hc]

theorem splitOnSpaceAux_nil_ne (acc : List Char) (hacc : acc.isEmpty = false) :
    splitOnSpaceAux [] acc = [acc.reverse] := by
  simp only [splitOnSpaceAux]
  rw [if_neg (by rw [hacc]; decide)]

theorem splitOnSpaceAux_space (rest acc : List Char) (hacc : acc.isEmpty = false) :
    splitOnSpaceAux (' ' :: rest) acc = acc.reverse :: splitOnSpaceAux rest [] := by
  simp only [splitOnSpaceAux, if_true]
  rw [if_neg (by rw [hacc]; decide)]

theorem splitOnSpaceAux_no_space : ∀ (l1 rest acc : List Char),
    (∀ c ∈ l1, c ≠ ' ') →
    splitOnSpaceAux (l1 ++ rest) acc = splitOnSpaceAux rest (l1.reverse ++ acc) := by
  intro l1
  induction l1 with
  | nil => intro rest acc _; simp
  | cons c t ih =>
    intro rest acc hns
    have hc : ¬(c = ' ') := hns c (List.mem_cons_self c t)
    rw [List.cons_append, splitOnSpaceAux_cons_ne c (t ++ rest) acc hc,
      ih rest (c :: acc) (fun x hx => hns x (List.mem_cons_of_mem c hx))]
    congr 1
    simp

theorem reverse_isEmpty_false {t : List Char} (hne : t ≠ []) :
    (t.reverse).isEmpty = false := by
  cases ht : t.reverse with
  | nil => exact absurd (by simpa using ht) hne
  | cons a b => rfl

theorem splitOnSpaceAux_single (t2 : List Char) (h2 : ∀ c ∈ t2, c ≠ ' ')
    (hne2 : t2 ≠ []) : splitOnSpaceAux t2 [] = [t2] := by
  have h := splitOnSpaceAux_no_space t2 [] [] h2
  rw [List.append_nil, List.append_nil] at h
  rw [h, splitOnSpaceAux_nil_ne t2.reverse (reverse_isEmpty_false hne2),
    List.reverse_reverse]

theorem splitOnSpace_two_tokens (t1 t2 : List Char)
    (h1 : ∀ c ∈ t1, c ≠ ' ') (h2 : ∀ c ∈ t2, c ≠ ' ')
    (hne1 : t1 ≠ []) (hne2 : t2 ≠ []) :
    splitOnSpace (t1 ++ ' ' :: t2) = [t1, t2] := by
  unfold splitOnSpace
  rw [splitOnSpaceAux_no_space t1 (' ' :: t2) [] h1, List.append_nil,
    splitOnSpaceAux_space t2 t1.reverse (reverse_isEmpty_false hne1),
    List.reverse_reverse, splitOnSpaceAux_single t2 h2 hne2]

theorem parseCompOp_gtTok (cs : List Char) (hne : cs ≠ [])
    (hns : ∀ x cs', cs = x :: cs' → x ≠ '=') :
    parseCompOp ('>' :: cs) = (.gt, cs) := by
  cases cs with
  | nil => exact absurd rfl hne
  | cons c r =>
    simp only [parseCompOp, if_true]
    rw [if_neg (hns c r rfl)]

theorem parseCompOp_ltTok (cs : List Char) (hne : cs ≠ [])
    (hns : ∀ x cs', cs = x :: cs' → x ≠ '=') :
    parseCompOp ('<' :: cs) = (.lt, cs) := by
  cases cs with
  | nil => exact absurd rfl hne
  | cons c r =>
    simp only [parseCompOp, if_true]
    rw [if_neg (show ¬(('<' : Char) = '>') by decide), if_neg (hns c r rfl)]

theorem parseComparator_gtTok {cs : List Char} {c : SemVer}
    (hp : parseSemVerChars cs = some c) (hne : cs ≠ [])
    (hns : ∀ x cs', cs = x :: cs' → x ≠ '=') :
    parseComparator ('>' :: cs) = some (.gt, c) := by
  unfold parseComparator
  rw [parseCompOp_gtTok cs hne hns]
  simp [hp]

theorem parseComparator_ltTok {cs : List Char} {c : SemVer}
    (hp : parseSemVerChars cs = some c) (hne : cs ≠ [])
    (hns : ∀ x cs', cs = x :: cs' → x ≠ '=') :
    parseComparator ('<' :: cs) = some (.lt, c) := by
  unfold parseComparator
  rw [parseCompOp_ltTok cs hne hns]
  simp [hp]

theorem good_ne_space {cs : List Char} (h : cs.all goodChar = true) :
    ∀ c ∈ cs, c ≠ ' ' := by
  intro c hc hsp
  have := List.all_eq_true.mp h c hc
  rw [hsp] at this
  exact absurd this (by decide)

theorem good_head_ne_eqsign {cs : List Char} (h : cs.all goodChar = true) :
    ∀ x cs', cs = x :: cs' → x ≠ '=' := by
  intro x cs' hcs hx
  subst hcs
  have := List.all_eq_true.mp h x (List.mem_cons_self x cs')
  rw [hx] at this
  exact absurd this (by decide)

theorem parseSemVerChars_ne_nil {cs : List Char} {v : SemVer}
    (h : parseSemVerChars cs = some v) : cs ≠ [] := by
  intro hnil
  rw [hnil, parseSemVerChars_nil] at h
  cases h

/-- The characters of `formatStable v`, in right-nested form. -/
theorem formatStable_eq (v : SemVer) :
    formatStable v =
      natToChars v.major ++ ('.' :: (natToChars v.minor ++ ('.' :: natToChars v.patch))) := by
  unfold formatStable
  simp

theorem formatStable_good (v : SemVer) : (formatStable v).all goodChar = true := by
  rw [formatStable_eq, List.all_append, List.all_cons, List.all_append, List.all_cons]
  rw [all_good_of_all_digit (natToChars_all_digits v.major),
    all_good_of_all_digit (natToChars_all_digits v.minor),
    all_good_of_all_digit (natToChars_all_digits v.patch)]
  decide

theorem formatStable_ne_nil (v : SemVer) : formatStable v ≠ [] := by
  rw [formatStable_eq]
  intro h
  cases hM : natToChars v.major with
  | nil => exact absurd hM (natToChars_ne_nil _)
  | cons d ds => rw [hM] at h; cases h

theorem formatStable_head_digit (v : SemVer) :
    ∀ x cs', formatStable v = x :: cs' → isDigit x = true := by
  rw [formatStable_eq]
  exact head_append_digit (natToChars_all_digits v.major) (natToChars_ne_nil _)

theorem parseSemVerChars_formatStable (v : SemVer) (hpre : v.prerelease = [])
    (hbld : v.build = []) : parseSemVerChars (formatStable v) = some v := by
  obtain ⟨M, mi, p, pre, bld⟩ := v
  simp only at hpre hbld
  subst hpre hbld
  rw [formatStable_eq]
  exact parseSemVerChars_stable M mi p

/-- The incremented version has no prerelease and no build parts. -/
theorem incPatch_stable (v : SemVer) :
    (incPatch v).prerelease = [] ∧ (incPatch v).build = [] := by
  unfold incPatch
  split <;> exact ⟨rfl, rfl⟩

theorem updateRangeStr_data {cs : String} {c : SemVer}
    (h : parseSemVerStr cs = some c) :
    (updateRangeStr cs).data =
      ('>' :: cs.data) ++ ' ' :: ('<' :: formatStable (incPatch c)) := by
  unfold updateRangeStr semverIncPatchStr
  rw [h, Option.map_some' _ _, Option.getD_some]
  rw [String.data_append, String.data_append, String.data_append]
  show ['>'] ++ cs.data ++ [' ', '<'] ++ formatStable (incPatch c) = _
  simp

theorem parseRange_updateRange {cs : String} {c : SemVer}
    (h : parseSemVerStr cs = some c) :
    parseRange (updateRangeStr cs) = some [(.gt, c), (.lt, incPatch c)] := by
  have hgood : cs.data.all goodChar = true := parseSemVerChars_good h
  have hfmt : parseSemVerChars (formatStable (incPatch c)) = some (incPatch c) :=
    parseSemVerChars_formatStable (incPatch c) (incPatch_stable c).1 (incPatch_stable c).2
  have hfg : (formatStable (incPatch c)).all goodChar = true :=
    formatStable_good (incPatch c)
  have ht1 : ∀ x ∈ '>' :: cs.data, x ≠ ' ' := by
    intro x hx
    rcases List.mem_cons.mp hx with rfl | hx2
    · decide
    · exact good_ne_space hgood x hx2
  have ht2 : ∀ x ∈ '<' :: formatStable (incPatch c), x ≠ ' ' := by
    intro x hx
    rcases List.mem_cons.mp hx with rfl | hx2
    · decide
    · exact good_ne_space hfg x hx2
  have hfne : ∀ x cs', formatStable (incPatch c) = x :: cs' → x ≠ '=' := by
    intro x cs' hx hEq
    have := formatStable_head_digit (incPatch c) x cs' hx
    rw [hEq] at this
    exact absurd this (by decide)
  unfold parseRange
  rw [updateRangeStr_data h,
    splitOnSpace_two_tokens ('>' :: cs.data) ('<' :: formatStable (incPatch c))
      ht1 ht2 (by simp) (by simp)]
  simp only [List.mapM_cons, List.mapM_nil]
  rw [parseComparator_gtTok (show parseSemVerChars cs.data = some c from h)
      (parseSemVerChars_ne_nil (show parseSemVerChars cs.data = some c from h))
      (good_head_ne_eqsign hgood),
    parseComparator_ltTok hfmt (formatStable_ne_nil _) hfne]
  rfl

/-! ## Claim theorems for the version resolver -/

theorem no_stable_inside (c v : SemVer) (hpre : v.prerelease = [])
    (h1 : semverCompare v c = .gt) (h2 : semverCompare v (incPatch c) = .lt) :
    False := by
  rw [semverCompare_gt_iff_lt] at h1
  rw [semverCompare_lt_iff] at h1 h2
  unfold incPatch at h2
  by_cases hc : c.prerelease.isEmpty = true
  · rw [if_pos hc] at h2
    dsimp only at h2
    have hcpre : c.prerelease = [] := List.isEmpty_iff.mp hc
    rcases h1 with h | ⟨e1, h⟩ | ⟨e1, e2, h⟩ | ⟨e1, e2, e3, h⟩ <;>
      rcases h2 with g | ⟨f1, g⟩ | ⟨f1, f2, g⟩ | ⟨f1, f2, f3, g⟩ <;>
        first
          | omega
          | simp [hcpre, hpre, comparePre] at h
          | simp [hpre, comparePre] at g
  · rw [if_neg hc] at h2
    dsimp only at h2
    rcases h1 with h | ⟨e1, h⟩ | ⟨e1, e2, h⟩ | ⟨e1, e2, e3, h⟩ <;>
      rcases h2 with g | ⟨f1, g⟩ | ⟨f1, f2, g⟩ | ⟨f1, f2, f3, g⟩ <;>
        first
          | omega
          | simp [hpre, comparePre] at g

theorem qualifies_parts {c : SemVer} {w : String} (h : qualifies c w = true) :
    ∃ wv, parseSemVerStr w = some wv ∧ datedPre w = true ∧
      rangeSatisfies [(.gt, c), (.lt, incPatch c)] wv = true := by
  unfold qualifies at h
  cases hp : parseSemVerStr w with
  | none => rw [hp] at h; cases h
  | some wv =>
    rw [hp] at h
    dsimp only at h
    simp only [Bool.and_eq_true] at h
    exact ⟨wv, rfl, h.1, h.2⟩

theorem qualifies_of_parts {c : SemVer} {w : String} {wv : SemVer}
    (hp : parseSemVerStr w = some wv) (hd : datedPre w = true)
    (hs : rangeSatisfies [(.gt, c), (.lt, incPatch c)] wv = true) :
    qualifies c w = true := by
  unfold qualifies
  rw [hp]
  dsimp only
  rw [hd, hs]
  rfl

theorem satOK_of (comps : List (CompOp × SemVer)) {w : String} {wv : SemVer}
    (hp : parseSemVerStr w = some wv) (hs : rangeSatisfies comps wv = true) :
    satOK comps w = true := by
  unfold satOK
  rw [hp]
  exact hs

/-- C6: for every valid `currentVersion`, the update range string that
`checkForConfigUpdates` builds (`>cur <semverInc(cur, "patch")`) parses back
to exactly the two comparators `>cur` and `<incPatch cur`, and — with
prereleases included — a version satisfies that range iff it lies strictly
inside the open interval `(cur, nextPatch cur)`, where `nextPatch` is
`semverInc(·, "patch")`, the deterministic next patch-level stable version. -/
theorem updateRange_is_open_interval (cs : String) (c : SemVer)
    (h : parseSemVerStr cs = some c) :
    parseRange (updateRangeStr cs) = some [(.gt, c), (.lt, incPatch c)] ∧
    (∀ v : SemVer, rangeSatisfies [(.gt, c), (.lt, incPatch c)] v = true ↔
      (semverCompare v c = .gt ∧ semverCompare v (incPatch c) = .lt)) :=
  ⟨parseRange_updateRange h, fun v => rangeSatisfies_pair c (incPatch c) v⟩

/-- Witness for C6 at the concrete current version `7.2.4`. -/
theorem updateRange_is_open_interval_witness :
    parseRange (updateRangeStr "7.2.4") =
      some [(.gt, ⟨7, 2, 4, [], []⟩), (.lt, incPatch ⟨7, 2, 4, [], []⟩)] ∧
    (∀ v : SemVer, rangeSatisfies [(.gt, (⟨7, 2, 4, [], []⟩ : SemVer)),
        (.lt, incPatch ⟨7, 2, 4, [], []⟩)] v = true ↔
      (semverCompare v ⟨7, 2, 4, [], []⟩ = .gt ∧
       semverCompare v (incPatch ⟨7, 2, 4, [], []⟩) = .lt)) :=
  updateRange_is_open_interval "7.2.4" ⟨7, 2, 4, [], []⟩ (by decide)

/-- C7: whenever `checkForConfigUpdates` returns a version for a valid
current version, the returned version string matches the 8-digit
dated-prerelease filter `/\-\d{8}$/` and is not a stable release: its parsed
prerelease part is nonempty. -/
theorem checkForConfigUpdates_result_dated_prerelease
    (registryVersions : List String) (cs : String) (c : SemVer) (r : String)
    (hc : parseSemVerStr cs = some c)
    (h : checkForConfigUpdates registryVersions cs = some r) :
    datedPre r = true ∧ ∃ rv, parseSemVerStr r = some rv ∧ rv.prerelease ≠ [] := by
  simp only [checkForConfigUpdates, semverMaxSatisfying] at h
  rw [parseRange_updateRange hc] at h
  obtain ⟨horig, -, -⟩ :=
    foldl_maxStep_max [(.gt, c), (.lt, incPatch c)] _ none r (fun m hm => by cases hm) h
  rcases horig with ⟨hrl, hsat⟩ | hnone
  · rw [List.mem_filter] at hrl
    obtain ⟨hrl2, hdated⟩ := hrl
    refine ⟨hdated, ?_⟩
    obtain ⟨rv, hpr, hrs⟩ := satOK_parse _ _ hsat
    refine ⟨rv, hpr, ?_⟩
    intro hpre
    rw [rangeSatisfies_pair] at hrs
    exact no_stable_inside c rv hpre hrs.1 hrs.2
  · cases hnone

/-- Witness for C7 at the concrete example from the specification. -/
theorem checkForConfigUpdates_result_dated_prerelease_witness :
    datedPre "7.2.5-20200424" = true ∧
    ∃ rv, parseSemVerStr "7.2.5-20200424" = some rv ∧ rv.prerelease ≠ [] :=
  checkForConfigUpdates_result_dated_prerelease
    ["7.2.5-20200101", "7.2.5-20200424", "7.3.0"] "7.2.4" ⟨7, 2, 4, [], []⟩
    "7.2.5-20200424" (by decide) (by decide)

/-- C5: for every valid current version and every registry listing, whenever
at least one listed version qualifies (valid semver, 8-digit dated-prerelease
suffix, strictly inside the update range), `checkForConfigUpdates` returns a
qualifying version that is maximal among all qualifying ones, comparing with
prereleases included.  In particular, with current version `7.2.4` and
registry versions `7.2.5-20200101`, `7.2.5-20200424` and `7.3.0` it returns
`7.2.5-20200424` (see the witness). -/
theorem checkForConfigUpdates_returns_max
    (registryVersions : List String) (cs : String) (c : SemVer)
    (hc : parseSemVerStr cs = some c)
    (hex : ∃ w ∈ registryVersions, qualifies c w = true) :
    ∃ r, checkForConfigUpdates registryVersions cs = some r ∧
      qualifies c r = true ∧
      ∀ w ∈ registryVersions, qualifies c w = true → svLe w r := by
  have hcall : checkForConfigUpdates registryVersions cs =
      ((registryVersions.filter (fun v => (parseSemVerStr v).isSome)).filter
        (fun v => datedPre v)).foldl (maxStep [(.gt, c), (.lt, incPatch c)]) none := by
    simp only [checkForConfigUpdates, semverMaxSatisfying]
    rw [parseRange_updateRange hc]
  obtain ⟨w0, hw0mem, hw0q⟩ := hex
  obtain ⟨w0v, hw0p, hw0d, hw0s⟩ := qualifies_parts hw0q
  have hw0L : w0 ∈ (registryVersions.filter (fun v => (parseSemVerStr v).isSome)).filter
      (fun v => datedPre v) := by
    rw [List.mem_filter]
    refine ⟨?_, hw0d⟩
    rw [List.mem_filter]
    exact ⟨hw0mem, by rw [hw0p]; rfl⟩
  cases hres : ((registryVersions.filter (fun v => (parseSemVerStr v).isSome)).filter
      (fun v => datedPre v)).foldl (maxStep [(.gt, c), (.lt, incPatch c)]) none with
  | none =>
    obtain ⟨-, hall⟩ := foldl_maxStep_none [(.gt, c), (.lt, incPatch c)] _ none
      (fun m hm => by cases hm) hres
    have hfalse := hall w0 hw0L
    rw [satOK_of _ hw0p hw0s] at hfalse
    cases hfalse
  | some r =>
    obtain ⟨horig, hmax, -⟩ := foldl_maxStep_max [(.gt, c), (.lt, incPatch c)] _ none r
      (fun m hm => by cases hm) hres
    rcases horig with ⟨hrL, hrsat⟩ | hnone
    · refine ⟨r, by rw [hcall, hres], ?_, ?_⟩
      · rw [List.mem_filter] at hrL
        obtain ⟨hrL2, hrd⟩ := hrL
        obtain ⟨rv, hrp, hrs⟩ := satOK_parse _ _ hrsat
        exact qualifies_of_parts hrp hrd hrs
      · intro w hw hwq
        obtain ⟨wv, hwp, hwd, hws⟩ := qualifies_parts hwq
        refine hmax w ?_ (satOK_of _ hwp hws)
        rw [List.mem_filter]
        refine ⟨?_, hwd⟩
        rw [List.mem_filter]
        exact ⟨hw, by rw [hwp]; rfl⟩
    · cases hnone

/-- Witness for C5 at the concrete example from the specification, pinning
the returned version to `7.2.5-20200424`. -/
theorem checkForConfigUpdates_returns_max_witness :
    (∃ w ∈ ["7.2.5-20200101", "7.2.5-20200424", "7.3.0"],
      qualifies ⟨7, 2, 4, [], []⟩ w = true) ∧
    (∃ r, checkForConfigUpdates ["7.2.5-20200101", "7.2.5-20200424", "7.3.0"]
        "7.2.4" = some r ∧
      qualifies ⟨7, 2, 4, [], []⟩ r = true ∧
      ∀ w ∈ ["7.2.5-20200101", "7.2.5-20200424", "7.3.0"],
        qualifies ⟨7, 2, 4, [], []⟩ w = true → svLe w r) ∧
    checkForConfigUpdates ["7.2.5-20200101", "7.2.5-20200424", "7.3.0"] "7.2.4" =
      some "7.2.5-20200424" :=
  ⟨by decide,
   checkForConfigUpdates_returns_max ["7.2.5-20200101", "7.2.5-20200424", "7.3.0"]
     "7.2.4" ⟨7, 2, 4, [], []⟩ (by decide) (by decide),
   by decide⟩

end UpdateConfig
